import Mathlib

/-!
Verification of the jflags command-line flag library (FlagValue, CommandLineFlag,
FlagRegistry, FlagSaver, and the flagfile line grammar) against its specification.

The C++ sources are shallowly embedded: each C++ function becomes a Lean function
over explicit state values.  C strings are `List Char` (a C string has no interior
NUL by construction of the `const char *` interface).  The libc scanners
`strtoll` / `strtoull` / `strtod` are modelled from the C standard, including
whitespace skipping, sign handling, the 0x prefix, the end pointer (`consumed`)
and ERANGE.  IEEE doubles are carried as exact rationals (`DoubleVal`): the
rounding of a decimal literal to the nearest binary64 value is not modelled, and
no theorem below depends on the numeric payload of a parsed double, only on
parse success or failure and on value propagation.  C function pointers
(validators) are modelled as `Option Nat` handles interpreted by an environment
`VEnv`; handle equality models pointer equality.
-/

set_option maxRecDepth 8000

namespace JFlags

/-- Characters accepted by isspace in the C locale: space, tab, newline,
vertical tab, form feed, carriage return. -/
def isCSpace (c : Char) : Bool :=
  c == ' ' || c == Char.ofNat 9 || c == Char.ofNat 10 || c == Char.ofNat 11 ||
    c == Char.ofNat 12 || c == Char.ofNat 13

/-- ASCII tolower, as used by strcasecmp. -/
def lowerChar (c : Char) : Char :=
  if 'A' ≤ c && c ≤ 'Z' then Char.ofNat (c.toNat + 32) else c

/-- Model of strcasecmp(a, b) == 0: equality up to ASCII case. -/
def strcaseEq (a b : List Char) : Bool :=
  a.map lowerChar == b.map lowerChar

def isDecDigit (c : Char) : Bool := '0' ≤ c && c ≤ '9'

def isHexDigit (c : Char) : Bool :=
  isDecDigit c || ('a' ≤ c && c ≤ 'f') || ('A' ≤ c && c ≤ 'F')

def hexDigitVal (c : Char) : Nat :=
  if isDecDigit c then c.toNat - 48
  else if 'a' ≤ c && c ≤ 'f' then c.toNat - 87
  else c.toNat - 55

def isDigitInBase (base : Nat) (c : Char) : Bool :=
  if base == 16 then isHexDigit c else isDecDigit c

/-- Value of a digit string, most significant digit first. -/
def digitsVal (base : Nat) (ds : List Char) : Nat :=
  ds.foldl (fun acc c => acc * base + hexDigitVal c) 0

/-- Result of a C integer scanner: the converted value, the offset of the end
pointer from the start of the input, and whether errno was set to ERANGE. -/
structure CScan where
  value : Int
  consumed : Nat
  erange : Bool
deriving DecidableEq

/-- Result of strtoull: same, with the value a Nat below 2 to the 64. -/
structure CUScan where
  value : Nat
  consumed : Nat
  erange : Bool
deriving DecidableEq

/-- Shared front end of strtoll and strtoull: skip isspace characters, consume an
optional sign, consume a 0x or 0X prefix when base is 16 and a hex digit follows,
and take the maximal digit run.  Returns (negative, prefix length, digits). -/
def intScanFront (s : List Char) (base : Nat) : Bool × Nat × List Char :=
  let ws := s.takeWhile isCSpace
  let r1 := s.dropWhile isCSpace
  let neg := r1.head? == some '-'
  let hasSign := neg || (r1.head? == some '+')
  let nsign := if hasSign then 1 else 0
  let r2 := if hasSign then r1.tail else r1
  let pre :=
    if base == 16 && (r2.head? == some '0')
        && ((r2.tail.head? == some 'x') || (r2.tail.head? == some 'X'))
        && ((r2.tail.tail.head?.map isHexDigit).getD false)
    then 2 else 0
  let ds := (r2.drop pre).takeWhile (isDigitInBase base)
  (neg, ws.length + nsign + pre + ds.length, ds)

/-- Model of strtoll(s, &end, base) for base 10 or 16.  On no conversion the end
pointer equals the input pointer (consumed = 0) and errno is untouched; on
overflow the result is clamped to the int64 range and ERANGE is set. -/
def strto64 (s : List Char) (base : Nat) : CScan :=
  let fr := intScanFront s base
  let ds := fr.2.2
  if ds.isEmpty then ⟨0, 0, false⟩
  else
    let m : Nat := digitsVal base ds
    let v : Int := if fr.1 then -(m : Int) else (m : Int)
    if v < -(2 ^ 63) then ⟨-(2 ^ 63), fr.2.1, true⟩
    else if (2 ^ 63 - 1 : Int) < v then ⟨2 ^ 63 - 1, fr.2.1, true⟩
    else ⟨v, fr.2.1, false⟩

/-- Model of strtoull(s, &end, base) for base 10 or 16.  A leading minus sign is
accepted and the converted magnitude is negated modulo 2 to the 64; a magnitude
above the uint64 range clamps to the maximum and sets ERANGE. -/
def strtou64 (s : List Char) (base : Nat) : CUScan :=
  let fr := intScanFront s base
  let ds := fr.2.2
  if ds.isEmpty then ⟨0, 0, false⟩
  else
    let m : Nat := digitsVal base ds
    if 2 ^ 64 - 1 < m then ⟨2 ^ 64 - 1, fr.2.1, true⟩
    else if fr.1 then ⟨(2 ^ 64 - m) % 2 ^ 64, fr.2.1, false⟩
    else ⟨m, fr.2.1, false⟩

/-- Value of a C double, carried exactly: a finite value is m times 10 to the
e10 times 2 to the e2 (a gcd-free exact rational), or one of the infinities, or
NaN.  The rounding of a parsed literal to binary64 is not modelled; no theorem
in this file depends on the numeric payload of a `fin`. -/
inductive DoubleVal
  | fin (m : Int) (e10 e2 : Int)
  | posInf
  | negInf
  | nan
deriving DecidableEq

/-- Compare two exact values m1 10^a1 2^b1 and m2 10^a2 2^b2 by clearing the
common denominator (the powers are computed on Nat, which the kernel
evaluates natively).  cmp = 0 tests equality, 1 tests strict less, 2 tests
less or equal. -/
def dfinCmp (cmp : Nat) (m1 a1 b1 m2 a2 b2 : Int) : Bool :=
  let a := min a1 a2
  let b := min b1 b2
  let l := m1 * ((Nat.pow 10 (a1 - a).toNat * Nat.pow 2 (b1 - b).toNat : Nat) : Int)
  let r := m2 * ((Nat.pow 10 (a2 - a).toNat * Nat.pow 2 (b2 - b).toNat : Nat) : Int)
  if cmp == 0 then l == r else if cmp == 1 then decide (l < r) else decide (l ≤ r)

/-- Scan an optional exponent part (marker m1 or m2, optional sign, decimal
digits).  Consumes nothing unless at least one digit follows the marker. -/
def scanExp (m1 m2 : Char) (s : List Char) : Int × Nat :=
  if (s.head? == some m1) || (s.head? == some m2) then
    let rest := s.tail
    let eneg := rest.head? == some '-'
    let hasSign := eneg || (rest.head? == some '+')
    let r2 := if hasSign then rest.tail else rest
    let ds := r2.takeWhile isDecDigit
    if ds.isEmpty then (0, 0)
    else
      let e : Int := (digitsVal 10 ds : Int)
      ((if eneg then -e else e), 1 + (if hasSign then 1 else 0) + ds.length)
  else (0, 0)

/-- Result of the strtod model. -/
structure DScan where
  value : DoubleVal
  consumed : Nat
  erange : Bool
deriving DecidableEq

/-- Apply sign and the ERANGE rule to a scanned magnitude m 10^e10 2^e2 with
m nonnegative.  Overflow (ERANGE, result an infinity) happens at and above the
midpoint between the largest finite binary64 value and the next step, which is
(2^54 - 1) 2^970 under round to nearest even; gradual underflow (ERANGE, finite
result) below the smallest normalized magnitude 2^(-1022).  The rounding
behavior exactly at the underflow boundary is approximated; no theorem depends
on inputs near it. -/
def finishD (neg : Bool) (m e10 e2 : Int) (consumed : Nat) : DScan :=
  if dfinCmp 2 (2 ^ 54 - 1) 0 970 m e10 e2 then
    ⟨if neg then DoubleVal.negInf else DoubleVal.posInf, consumed, true⟩
  else if m != 0 && dfinCmp 1 m e10 e2 1 0 (-1022) then
    ⟨DoubleVal.fin (if neg then -m else m) e10 e2, consumed, true⟩
  else ⟨DoubleVal.fin (if neg then -m else m) e10 e2, consumed, false⟩

/-- Characters admitted inside the parenthesized part of a NaN literal. -/
def isNanChar (c : Char) : Bool :=
  isDecDigit c || ('a' ≤ c && c ≤ 'z') || ('A' ≤ c && c ≤ 'Z') || c == '_'

/-- Decimal part of the strtod scan: digits, optional fraction, optional
exponent.  With no digit at all there is no conversion (consumed = 0). -/
def decScan (neg : Bool) (pre : Nat) (r : List Char) : DScan :=
  let di := r.takeWhile isDecDigit
  let t2 := r.drop di.length
  let hasDot := t2.head? == some '.'
  let df := if hasDot then t2.tail.takeWhile isDecDigit else []
  let nfrac := if hasDot then 1 + df.length else 0
  let t3 := if hasDot then t2.tail.drop df.length else t2
  if di.isEmpty && df.isEmpty then ⟨DoubleVal.fin 0 0 0, 0, false⟩
  else
    let er := scanExp 'e' 'E' t3
    let m : Int := (digitsVal 10 di : Int) * 10 ^ df.length + (digitsVal 10 df : Int)
    finishD neg m (er.1 - df.length) 0 (pre + di.length + nfrac + er.2)

/-- Model of strtod(s, &end) per C99: whitespace, sign, then a decimal floating
form, a hexadecimal floating form, an infinity, or a NaN; longest valid prefix;
ERANGE on overflow and on gradual underflow. -/
def strtodModel (s : List Char) : DScan :=
  let ws := s.takeWhile isCSpace
  let r1 := s.dropWhile isCSpace
  let neg := r1.head? == some '-'
  let hasSign := neg || (r1.head? == some '+')
  let r2 := if hasSign then r1.tail else r1
  let pre := ws.length + (if hasSign then 1 else 0)
  if strcaseEq (r2.take 8) ("infinity".data) then
    ⟨if neg then DoubleVal.negInf else DoubleVal.posInf, pre + 8, false⟩
  else if strcaseEq (r2.take 3) ("inf".data) then
    ⟨if neg then DoubleVal.negInf else DoubleVal.posInf, pre + 3, false⟩
  else if strcaseEq (r2.take 3) ("nan".data) then
    let r3 := r2.drop 3
    if r3.head? == some '(' then
      let t := r3.tail
      let seq := t.takeWhile isNanChar
      if (t.drop seq.length).head? == some ')' then
        ⟨DoubleVal.nan, pre + 3 + 2 + seq.length, false⟩
      else ⟨DoubleVal.nan, pre + 3, false⟩
    else ⟨DoubleVal.nan, pre + 3, false⟩
  else if (r2.head? == some '0')
      && ((r2.tail.head? == some 'x') || (r2.tail.head? == some 'X'))
      && (((r2.tail.tail.head?.map isHexDigit).getD false)
        || ((r2.tail.tail.head? == some '.')
            && ((r2.tail.tail.tail.head?.map isHexDigit).getD false))) then
    let t := r2.tail.tail
    let di := t.takeWhile isHexDigit
    let t2 := t.drop di.length
    let hasDot := t2.head? == some '.'
    let df := if hasDot then t2.tail.takeWhile isHexDigit else []
    let nfrac := if hasDot then 1 + df.length else 0
    let t3 := if hasDot then t2.tail.drop df.length else t2
    let er := scanExp 'p' 'P' t3
    let m : Int := (digitsVal 16 di : Int) * 16 ^ df.length + (digitsVal 16 df : Int)
    finishD neg m 0 (er.1 - 4 * df.length) (pre + 2 + di.length + nfrac + er.2)
  else decScan neg pre r2

/-! FlagValue: the type-erased typed value holder (src/lib/FlagValue.cc). -/

/-- Discriminant of a FlagValue, mirroring the ValueType enumeration. -/
inductive ValueType
  | fvBool
  | fvInt32
  | fvUInt32
  | fvInt64
  | fvUInt64
  | fvDouble
  | fvString
deriving DecidableEq

/-- Contents of a FlagValue buffer: the discriminant together with a value of
the matching native representation. -/
inductive FVData
  | vBool (b : Bool)
  | vInt32 (i : Int)
  | vUInt32 (n : Nat)
  | vInt64 (i : Int)
  | vUInt64 (n : Nat)
  | vDouble (d : DoubleVal)
  | vString (s : List Char)
deriving DecidableEq

def fvType : FVData → ValueType
  | .vBool _ => .fvBool
  | .vInt32 _ => .fvInt32
  | .vUInt32 _ => .fvUInt32
  | .vInt64 _ => .fvInt64
  | .vUInt64 _ => .fvUInt64
  | .vDouble _ => .fvDouble
  | .vString _ => .fvString

/-- Model of FlagValue::New(): a fresh owned zero value of the given kind. -/
def fvNew : ValueType → FVData
  | .fvBool => .vBool false
  | .fvInt32 => .vInt32 0
  | .fvUInt32 => .vUInt32 0
  | .fvInt64 => .vInt64 0
  | .fvUInt64 => .vUInt64 0
  | .fvDouble => .vDouble (DoubleVal.fin 0 0 0)
  | .fvString => .vString []

/-- Model of FlagValue::TypeName(). -/
def typeNameOf : ValueType → List Char
  | .fvBool => "bool".data
  | .fvInt32 => "int32".data
  | .fvUInt32 => "uint32".data
  | .fvInt64 => "int64".data
  | .fvUInt64 => "uint64".data
  | .fvDouble => "double".data
  | .fvString => "string".data

/-- C equality of two doubles: exact value comparison on finite values, and
NaN compares unequal to everything, itself included. -/
def dblEqual : DoubleVal → DoubleVal → Bool
  | .fin m1 a1 b1, .fin m2 a2 b2 => dfinCmp 0 m1 a1 b1 m2 a2 b2
  | .posInf, .posInf => true
  | .negInf, .negInf => true
  | _, _ => false

/-- Model of FlagValue::Equal: false on a type mismatch, otherwise the native
equality of the two kinds. -/
def fvEqual : FVData → FVData → Bool
  | .vBool a, .vBool b => a == b
  | .vInt32 a, .vInt32 b => a == b
  | .vUInt32 a, .vUInt32 b => a == b
  | .vInt64 a, .vInt64 b => a == b
  | .vUInt64 a, .vUInt64 b => a == b
  | .vDouble a, .vDouble b => dblEqual a b
  | .vString a, .vString b => a == b
  | _, _ => false

/-- Model of FlagValue::CopyFrom: kind-wise assignment of the source payload.
The source asserts matching types; on a mismatch (never reached by the
callers modelled here) the destination is kept. -/
def fvCopyFrom (dst src : FVData) : FVData :=
  if fvType dst = fvType src then src else dst

/-- Wrap of an arbitrary integer into the int32 value produced by
static_cast in C (two's complement). -/
def int32Cast (i : Int) : Int := (i + 2 ^ 31) % 2 ^ 32 - 2 ^ 31

/-- Truncation of a uint64 to uint32 by static_cast. -/
def uint32Cast (n : Nat) : Nat := n % 2 ^ 32

/-- The accepted spellings of true, checked case-insensitively. -/
def kTrue : List (List Char) := ["1".data, "t".data, "true".data, "y".data, "yes".data]

/-- The accepted spellings of false, checked case-insensitively. -/
def kFalse : List (List Char) := ["0".data, "f".data, "false".data, "n".data, "no".data]

/-- Boolean branch of ParseFrom.  The source walks the kTrue and kFalse arrays
pairwise; as the two sets are disjoint even case-insensitively, checking all of
kTrue first is equivalent. -/
def parseBool (value : List Char) : Option Bool :=
  if kTrue.any (strcaseEq value) then some true
  else if kFalse.any (strcaseEq value) then some false
  else none

/-- Base selected for the numeric scan: a leading 0x or 0X gives 16, anything
else (a leading 0 included) gives 10. -/
def numBase (value : List Char) : Nat :=
  if (value.head? == some '0')
      && ((value.tail.head? == some 'x') || (value.tail.head? == some 'X'))
  then 16 else 10

/-- Model of FlagValue::ParseFrom.  Returns the freshly stored payload on
success and none on failure, in which case the source leaves its buffer
untouched.  Structure mirrors the source: the bool and string kinds first, then
the shared empty-string rejection and base selection, then the per-kind scan
with its end-pointer, errno and narrowing checks. -/
def parseFrom (t : ValueType) (value : List Char) : Option FVData :=
  if t = .fvBool then (parseBool value).map FVData.vBool
  else if t = .fvString then some (.vString value)
  else if value.isEmpty then none
  else
    let base := numBase value
    match t with
    | .fvInt32 =>
      let r := strto64 value base
      if r.erange || r.consumed != value.length then none
      else if int32Cast r.value != r.value then none
      else some (.vInt32 r.value)
    | .fvUInt32 =>
      let v1 := value.dropWhile (· == ' ')
      if v1.head? == some '-' then none
      else
        let r := strtou64 v1 base
        if r.erange || r.consumed != v1.length then none
        else if uint32Cast r.value != r.value then none
        else some (.vUInt32 r.value)
    | .fvInt64 =>
      let r := strto64 value base
      if r.erange || r.consumed != value.length then none
      else some (.vInt64 r.value)
    | .fvUInt64 =>
      let v1 := value.dropWhile (· == ' ')
      if v1.head? == some '-' then none
      else
        let r := strtou64 v1 base
        if r.erange || r.consumed != v1.length then none
        else some (.vUInt64 r.value)
    | .fvDouble =>
      let r := strtodModel value
      if r.erange || r.consumed != value.length then none
      else some (.vDouble r.value)
    | _ => none

/-- Formatting of a double.  The finite case stands in for %.17g, whose exact
digits depend on binary64 rounding and are not modelled; no theorem below
depends on them.  The special values match the glibc spellings. -/
def doubleToChars : DoubleVal → List Char
  | .nan => "nan".data
  | .posInf => "inf".data
  | .negInf => "-inf".data
  | .fin m a b =>
    (toString m).data ++ " 10^".data ++ (toString a).data ++ " 2^".data ++ (toString b).data

/-- Model of FlagValue::ToString: bool as true or false, integers in decimal,
string verbatim. -/
def fvToString : FVData → List Char
  | .vBool b => if b then "true".data else "false".data
  | .vInt32 i => (toString i).data
  | .vUInt32 n => (toString n).data
  | .vInt64 i => (toString i).data
  | .vUInt64 n => (toString n).data
  | .vDouble d => doubleToChars d
  | .vString s => s

/-! CommandLineFlag: one named flag (src/lib/CommandLineFlag.cc).  C validator
function pointers are modelled as Nat handles; a validator environment
interprets a handle as a predicate on the flag name and the proposed value,
mirroring the cast-back dispatch of FlagValue::Validate.  Handle equality
models pointer equality. -/

/-- Interpretation of validator function pointers. -/
abbrev VEnv := Nat → List Char → FVData → Bool

/-- Model of CommandLineFlag.  The ptr field is the address of the buffer of
the current value (current_->value_buffer_), the key of the flags_by_ptr_
map. -/
structure CommandLineFlag where
  name : List Char
  help : List Char
  file : List Char
  modified : Bool
  defvalue : FVData
  current : FVData
  validate_fn_proto : Option Nat
  ptr : Nat
deriving DecidableEq

/-- Model of CommandLineFlag::type_name(): the type name of the default
value. -/
def CommandLineFlag.type_name (f : CommandLineFlag) : List Char :=
  typeNameOf (fvType f.defvalue)

/-- Model of CommandLineFlag::Validate: true when no validator is registered,
otherwise the verdict of the registered validator on the proposed value. -/
def CommandLineFlag.Validate (venv : VEnv) (f : CommandLineFlag) (value : FVData) : Bool :=
  match f.validate_fn_proto with
  | none => true
  | some p => venv p f.name value

/-- Model of CommandLineFlag::UpdateModifiedBit: reconcile the modified bit
with the stored values, because external code may have written the bound
storage directly. -/
def CommandLineFlag.UpdateModifiedBit (f : CommandLineFlag) : CommandLineFlag :=
  if !f.modified && !fvEqual f.current f.defvalue then { f with modified := true } else f

/-- Model of CommandLineFlag::CopyFrom: copy the four non-const members from
src, each only when it differs, exactly as the source does. -/
def CommandLineFlag.CopyFrom (dst src : CommandLineFlag) : CommandLineFlag :=
  { dst with
    modified := if dst.modified != src.modified then src.modified else dst.modified
    current := if !fvEqual dst.current src.current then fvCopyFrom dst.current src.current
      else dst.current
    defvalue := if !fvEqual dst.defvalue src.defvalue then fvCopyFrom dst.defvalue src.defvalue
      else dst.defvalue
    validate_fn_proto := if dst.validate_fn_proto != src.validate_fn_proto
      then src.validate_fn_proto else dst.validate_fn_proto }

/-- Model of the exported read-only record CommandLineFlagInfo. -/
structure CommandLineFlagInfo where
  name : List Char
  type : List Char
  description : List Char
  current_value : List Char
  default_value : List Char
  filename : List Char
  is_default : Bool
  has_validator_fn : Bool
  flag_ptr : Nat
deriving DecidableEq

/-- Model of CommandLineFlag::CleanFileName: the configured kRootDir is the
empty string, so the declaring file name is returned unchanged. -/
def CommandLineFlag.CleanFileName (f : CommandLineFlag) : List Char := f.file

/-- Model of CommandLineFlag::FillCommandLineFlagInfo: fills the info record
and runs UpdateModifiedBit on the flag (is_default is read afterwards), so it
returns both the record and the possibly updated flag. -/
def CommandLineFlag.FillCommandLineFlagInfo (f0 : CommandLineFlag) :
    CommandLineFlagInfo × CommandLineFlag :=
  let f := f0.UpdateModifiedBit
  (⟨f0.name, f0.type_name, f0.help, fvToString f0.current, fvToString f0.defvalue,
    f0.CleanFileName, !f.modified, f0.validate_fn_proto.isSome, f0.ptr⟩, f)

/-! Diagnostic messages (kError is the string ERROR followed by a colon and a
space; messages are assembled as StringPrintf / StringAppendF do in the
source).  An apostrophe character is written through `sq`. -/

def sq : Char := Char.ofNat 39

/-- Message appended by TryParseLocked when the value text does not parse. -/
def parseErrorMsg (value tname fname : List Char) : List Char :=
  "ERROR: illegal value ".data ++ [sq] ++ value ++ [sq] ++ " specified for ".data ++
    tname ++ " flag ".data ++ [sq] ++ fname ++ [sq] ++ "\n".data

/-- Message appended by TryParseLocked when the parsed value fails the
registered validator. -/
def validateErrorMsg (valstr fname : List Char) : List Char :=
  "ERROR: failed validation of new value ".data ++ [sq] ++ valstr ++ [sq] ++
    " for flag ".data ++ [sq] ++ fname ++ [sq] ++ "\n".data

/-- Message appended by TryParseLocked on success. -/
def setToMsg (fname valstr : List Char) : List Char :=
  fname ++ " set to ".data ++ valstr ++ "\n".data

/-! TryParseLocked and FlagRegistry::SetFlagLocked (src/lib/FlagRegistry.cc). -/

/-- Result of TryParseLocked: success, the (possibly updated) contents of the
target FlagValue, and the message text appended to the caller msg. -/
structure TryParseResult where
  ok : Bool
  value : FVData
  msg : List Char
deriving DecidableEq

/-- Model of TryParseLocked: parse into a freshly allocated tentative
FlagValue of the same kind as the target (never into the target itself),
validate the tentative value, and only on success copy it into the target.
On failure the target is returned untouched and an error message is
produced. -/
def TryParseLocked (venv : VEnv) (flag : CommandLineFlag) (flag_value : FVData)
    (value : List Char) : TryParseResult :=
  let tentative := fvNew (fvType flag_value)
  match parseFrom (fvType tentative) value with
  | none => ⟨false, flag_value, parseErrorMsg value flag.type_name flag.name⟩
  | some t =>
    if !flag.Validate venv t then ⟨false, flag_value, validateErrorMsg (fvToString t) flag.name⟩
    else
      let nv := fvCopyFrom flag_value t
      ⟨true, nv, setToMsg flag.name (fvToString nv)⟩

/-- The three flag setting modes. -/
inductive FlagSettingMode
  | SET_FLAGS_VALUE
  | SET_FLAG_IF_DEFAULT
  | SET_FLAGS_DEFAULT
deriving DecidableEq

/-- Result of SetFlagLocked: the return value, the flag after the call (the
source mutates it in place), and the message written to *msg. -/
structure SetFlagResult where
  ok : Bool
  flag : CommandLineFlag
  msg : List Char
deriving DecidableEq

/-- Model of FlagRegistry::SetFlagLocked.  The modified bit is reconciled
first; then the mode is applied.  In SET_FLAGS_DEFAULT the second parse into
current (performed only for an unmodified flag) passes a NULL msg in the
source, so its message is dropped here. -/
def SetFlagLocked (venv : VEnv) (flag0 : CommandLineFlag) (value : List Char)
    (set_mode : FlagSettingMode) : SetFlagResult :=
  let flag := flag0.UpdateModifiedBit
  match set_mode with
  | .SET_FLAGS_VALUE =>
    let r := TryParseLocked venv flag flag.current value
    if !r.ok then ⟨false, flag, r.msg⟩
    else ⟨true, { flag with current := r.value, modified := true }, r.msg⟩
  | .SET_FLAG_IF_DEFAULT =>
    if !flag.modified then
      let r := TryParseLocked venv flag flag.current value
      if !r.ok then ⟨false, flag, r.msg⟩
      else ⟨true, { flag with current := r.value, modified := true }, r.msg⟩
    else ⟨true, flag, flag.name ++ " set to ".data ++ fvToString flag.current⟩
  | .SET_FLAGS_DEFAULT =>
    let r := TryParseLocked venv flag flag.defvalue value
    if !r.ok then ⟨false, flag, r.msg⟩
    else
      let f1 := { flag with defvalue := r.value }
      if !f1.modified then
        let r2 := TryParseLocked venv f1 f1.current value
        ⟨true, { f1 with current := r2.value }, r.msg⟩
      else ⟨true, f1, r.msg⟩

/-! FlagRegistry (src/lib/FlagRegistry.cc).  The two std maps flags_ (keyed by
name) and flags_by_ptr_ (keyed by the current-value buffer address) are
modelled by one list of flags searched by name or by ptr; registration inserts
into both, so uniqueness of names and of ptr keys is carried as a hypothesis
where a theorem needs it.  In-place mutation of a found flag becomes a mapped
replacement of the entry with the same key. -/

structure FlagRegistry where
  flags : List CommandLineFlag
deriving DecidableEq

/-- Model of FlagRegistry::FindFlagLocked. -/
def FlagRegistry.FindFlagLocked (r : FlagRegistry) (name : List Char) :
    Option CommandLineFlag :=
  r.flags.find? (fun f => f.name == name)

/-- Model of FlagRegistry::FindFlagViaPtrLocked. -/
def FlagRegistry.FindFlagViaPtrLocked (r : FlagRegistry) (p : Nat) :
    Option CommandLineFlag :=
  r.flags.find? (fun f => f.ptr == p)

/-- In-place mutation of the flag object named g.name: every entry under that
name (unique in the real map) becomes g. -/
def FlagRegistry.updateFlag (r : FlagRegistry) (g : CommandLineFlag) : FlagRegistry :=
  ⟨r.flags.map (fun f => if f.name == g.name then g else f)⟩

/-- In-place mutation of the flag object whose current-value buffer is at p. -/
def FlagRegistry.updateFlagByPtr (r : FlagRegistry) (p : Nat) (g : CommandLineFlag) :
    FlagRegistry :=
  ⟨r.flags.map (fun f => if f.ptr == p then g else f)⟩

/-- Names of flags in a registry, for uniqueness hypotheses. -/
def FlagRegistry.names (r : FlagRegistry) : List (List Char) :=
  r.flags.map (fun f => f.name)

/-- Result of SplitArgumentLocked: the resolved flag (or none on error), the
key written into *key, the value pointer *v, and the error message. -/
structure SplitResult where
  flag : Option CommandLineFlag
  key : List Char
  value : Option (List Char)
  error_message : List Char
deriving DecidableEq

/-- Unknown command line flag diagnostic of SplitArgumentLocked. -/
def unknownFlagMsg (key : List Char) : List Char :=
  "ERROR: unknown command line flag ".data ++ [sq] ++ key ++ [sq] ++ "\n".data

/-- Diagnostic of SplitArgumentLocked for a boolean negation applied to a
non-boolean flag. -/
def boolNonBoolMsg (key tname : List Char) : List Char :=
  "ERROR: boolean value (".data ++ key ++ ") specified for ".data ++ tname ++
    " command line flag\n".data

/-- Split an argument at its first equals sign, as strchr does. -/
def splitEq (arg : List Char) : List Char × Option (List Char) :=
  match arg.findIdx? (· == '=') with
  | none => (arg, none)
  | some i => (arg.take i, some (arg.drop (i + 1)))

/-- Model of FlagRegistry::SplitArgumentLocked.  On a failed name lookup, a
name of the form noX retries as X provided X exists and is boolean, rewriting
the value to 0; a resolved boolean flag with no inline value gets value 1 (the
source applies that defaulting after the no case, where the value is already
the string 0, so it cannot fire there). -/
def FlagRegistry.SplitArgumentLocked (r : FlagRegistry) (arg : List Char) : SplitResult :=
  let kv := splitEq arg
  let key := kv.1
  match r.FindFlagLocked key with
  | some flag =>
    let v2 := if kv.2 == none && flag.type_name == "bool".data then some ("1".data) else kv.2
    ⟨some flag, key, v2, []⟩
  | none =>
    match key with
    | 'n' :: 'o' :: rest =>
      match r.FindFlagLocked rest with
      | none => ⟨none, key, kv.2, unknownFlagMsg key⟩
      | some flag =>
        if flag.type_name != "bool".data then
          ⟨none, key, kv.2, boolNonBoolMsg key flag.type_name⟩
        else ⟨some flag, rest, some ("0".data), []⟩
    | _ => ⟨none, key, kv.2, unknownFlagMsg key⟩

/-! AddFlagValidator (src/lib/jflags_validator.cc): attach a validator to the
flag whose current-value storage is at the given address. -/

/-- Model of AddFlagValidator.  Returns the verdict and the registry after the
call. -/
def AddFlagValidator (r : FlagRegistry) (flag_ptr : Nat) (validate_fn_proto : Option Nat) :
    Bool × FlagRegistry :=
  match r.FindFlagViaPtrLocked flag_ptr with
  | none => (false, r)
  | some flag =>
    if validate_fn_proto == flag.validate_fn_proto then (true, r)
    else if validate_fn_proto != none && flag.validate_fn_proto != none then (false, r)
    else (true, r.updateFlagByPtr flag_ptr { flag with validate_fn_proto := validate_fn_proto })

/-! FlagSaver (src/lib/FlagSaver.cc): capture a deep copy of every flag and
restore it later by name. -/

/-- Backup construction of SaveFromRegistry for one flag: a fresh
CommandLineFlag with the same identity, fresh zero values from New(), then
CopyFrom the live flag.  The fresh backup buffers have their own addresses;
the ptr field of a backup is never consulted, so it is carried unchanged. -/
def backupOf (main : CommandLineFlag) : CommandLineFlag :=
  let b : CommandLineFlag :=
    { name := main.name, help := main.help, file := main.file, modified := false,
      defvalue := fvNew (fvType main.defvalue), current := fvNew (fvType main.current),
      validate_fn_proto := none, ptr := main.ptr }
  b.CopyFrom main

/-- Model of FlagSaverImpl::SaveFromRegistry: one backup per registry entry, in
registry order. -/
def SaveFromRegistry (r : FlagRegistry) : List CommandLineFlag :=
  r.flags.map backupOf

/-- Model of FlagSaverImpl::RestoreToRegistry: for every backup, look up the
live flag by name and CopyFrom the backup into it; a name no longer present is
skipped. -/
def RestoreToRegistry (backup : List CommandLineFlag) (r : FlagRegistry) : FlagRegistry :=
  backup.foldl
    (fun acc b =>
      match acc.FindFlagLocked b.name with
      | some mainf => acc.updateFlag (mainf.CopyFrom b)
      | none => acc)
    r

/-! Flagfile content processing (src/lib/jflags.cc,
CommandLineFlagParser::ProcessOptionsFromStringLocked and
ProcessSingleOptionLocked).  The glob match of a pattern against the full
program invocation path and its basename (fnmatch or PathMatchSpec plus the
two literal comparisons) is abstracted into one boolean predicate on the
pattern, passed as the matchesProgram argument.  ProcessSingleOptionLocked
additionally expands the three directive flags (named flagfile, fromenv and
tryfromenv) by reading files and the environment; that expansion performs IO
and has no recursion guard for a flagfile including itself, so it cannot be a
total function of this state.  It is omitted here, and every theorem about
this model assumes no registered flag bears one of those three names, which
makes the omitted branch unreachable. -/

/-- State threaded through option processing: the registry and the
error_flags_ map of the calling CommandLineFlagParser (an assoc list keyed by
flag name, insertion overwrites). -/
structure PState where
  registry : FlagRegistry
  error_flags : List (List Char × List Char)
deriving DecidableEq

/-- Map insertion or overwrite for error_flags_. -/
def setAssoc (m : List (List Char × List Char)) (k v : List Char) :
    List (List Char × List Char) :=
  if m.any (fun p => p.1 == k) then m.map (fun p => if p.1 == k then (k, v) else p)
  else m ++ [(k, v)]

/-- Model of ProcessSingleOptionLocked without the directive expansion (see
the section comment): set the flag; on failure record the diagnostic under the
flag name and return an empty message, on success return the set-to
message. -/
def ProcessSingleOptionLocked (venv : VEnv) (st : PState) (flag : CommandLineFlag)
    (value : List Char) (set_mode : FlagSettingMode) : PState × List Char :=
  let r := SetFlagLocked venv flag value set_mode
  let st2 : PState := { st with registry := st.registry.updateFlag r.flag }
  if !r.ok then
    ({ st2 with error_flags := setAssoc st2.error_flags flag.name r.msg }, [])
  else (st2, r.msg)

/-- One flag-setting line of a flagfile (leading dash already seen): strip one
or two dashes, split, and apply when both a flag and a value are present;
lookup failures and missing values are silently ignored by API. -/
def processFlagLine (venv : VEnv) (set_mode : FlagSettingMode) (rest : List Char)
    (st : PState) : PState × List Char :=
  let name_and_val := if rest.head? == some '-' then rest.tail else rest
  let sp := st.registry.SplitArgumentLocked name_and_val
  match sp.flag, sp.value with
  | some flag, some v => ProcessSingleOptionLocked venv st flag v set_mode
  | _, _ => (st, [])

/-- Word loop of a filename-section line: check the relevance bit before each
word and stop as soon as it is set, otherwise evaluate the word as a glob
pattern against the running program. -/
def matchWords (matchesProgram : List Char → Bool) : Bool → List (List Char) → Bool
  | rel, [] => rel
  | rel, w :: ws => if rel then rel else matchWords matchesProgram (matchesProgram w) ws

/-- Classification and processing of one line (leading whitespace already
skipped): comment or empty lines do nothing; a dash line leaves the filename
section and, when flags are relevant, applies the flag; any other line opens a
filename section (resetting relevance on entry) and scans its space-separated
glob patterns.  Returns the updated relevance bit, section bit, state and
output. -/
def processLine (venv : VEnv) (matchesProgram : List Char → Bool)
    (set_mode : FlagSettingMode) (line : List Char) (rel insec : Bool) (st : PState) :
    Bool × Bool × PState × List Char :=
  if line.isEmpty || (line.head? == some '#') then (rel, insec, st, [])
  else if line.head? == some '-' then
    if !rel then (rel, false, st, [])
    else
      let pr := processFlagLine venv set_mode line.tail st
      (rel, false, pr.1, pr.2)
  else
    let bits : Bool × Bool := if !insec then (false, true) else (rel, insec)
    (matchWords matchesProgram bits.1 (line.splitOn ' '), bits.2, st, [])

/-- Line-end search of ProcessOptionsFromStringLocked: strchr for a carriage
return anywhere in the remaining content, else strchr for a newline. -/
def lineSep (c1 : List Char) : Option Nat :=
  match c1.findIdx? (· == Char.ofNat 13) with
  | some i => some i
  | none => c1.findIdx? (· == Char.ofNat 10)

theorem lineSep_lt_length (c1 : List Char) (i : Nat) (h : lineSep c1 = some i) :
    i < c1.length := by
  unfold lineSep at h
  rcases hr : c1.findIdx? (fun c => c == Char.ofNat 13) with _ | j
  · rw [hr] at h
    exact (List.findIdx?_eq_some_iff_findIdx_eq.mp h).1
  · rw [hr] at h
    cases h
    exact (List.findIdx?_eq_some_iff_findIdx_eq.mp hr).1

/-- Model of ProcessOptionsFromStringLocked: skip isspace characters (which
crosses blank lines), find the line end, process the line, and continue after
the separator; the last line has no separator.  Accumulates the concatenated
per-option messages. -/
def ProcessOptionsFromStringLocked (venv : VEnv) (matchesProgram : List Char → Bool)
    (set_mode : FlagSettingMode) (content : List Char) (rel insec : Bool) (st : PState) :
    PState × List Char :=
  let c1 := content.dropWhile isCSpace
  match h : lineSep c1 with
  | none =>
    let pr := processLine venv matchesProgram set_mode c1 rel insec st
    (pr.2.2.1, pr.2.2.2)
  | some i =>
    let pr := processLine venv matchesProgram set_mode (c1.take i) rel insec st
    let tail := ProcessOptionsFromStringLocked venv matchesProgram set_mode
      (c1.drop (i + 1)) pr.1 pr.2.1 pr.2.2.1
    (tail.1, pr.2.2.2 ++ tail.2)
termination_by content.length
decreasing_by
  have h1 : (List.dropWhile isCSpace content).length ≤ content.length :=
    (List.dropWhile_sublist isCSpace (l := content)).length_le
  have h2 : i < (List.dropWhile isCSpace content).length := lineSep_lt_length _ _ h
  simp only [List.length_drop]
  omega

/-! Auxiliary notions used by the theorems below. -/

/-- Observational equality of two FlagValue contents: either structurally the
same, or related by the C equality operator (fvEqual).  In the C original two
==-equal values of the same kind are interchangeable for every exported
observation; in this model an unnormalized double triple can denote the same
value in two ways, which this relation identifies. -/
abbrev ObsEqV (x y : FVData) : Prop := x = y ∨ fvEqual x y = true

/-- Wellformedness of a flag for the value-kind invariant of the data model:
current and default values have the same kind. -/
abbrev FlagWF (f : CommandLineFlag) : Prop := fvType f.current = fvType f.defvalue

/-- Rational value denoted by an exact triple m 10^a 2^b (for proofs only). -/
def dfinQ (m a b : Int) : ℚ := (m : ℚ) * (10 : ℚ) ^ a * (2 : ℚ) ^ b

/-- Names of the three directive flags expanded by ProcessSingleOptionLocked. -/
def directiveNames : List (List Char) :=
  ["flagfile".data, "fromenv".data, "tryfromenv".data]

/-- A registry without directive flags: the omitted expansion branch of
ProcessSingleOptionLocked is unreachable on such a registry. -/
abbrev NoDirectives (r : FlagRegistry) : Prop :=
  ∀ f ∈ r.flags, f.name ∉ directiveNames

/-! Concrete fixtures for the witness theorems. -/

/-- A boolean flag named foo. -/
def fooFlag : CommandLineFlag :=
  ⟨"foo".data, "h".data, "a.cc".data, false, .vBool false, .vBool false, none, 1⟩

/-- An int32 flag named bar. -/
def barFlag : CommandLineFlag :=
  ⟨"bar".data, "h".data, "a.cc".data, false, .vInt32 0, .vInt32 0, none, 2⟩

/-- An int32 flag named val with validator handle 0 attached. -/
def valFlag : CommandLineFlag :=
  ⟨"val".data, "h".data, "b.cc".data, false, .vInt32 0, .vInt32 0, some 0, 3⟩

/-- A registry with the three fixture flags. -/
def egRegistry : FlagRegistry := ⟨[fooFlag, barFlag, valFlag]⟩

/-- An int32 flag whose bound storage was written directly, bypassing the API:
the current value diverges from the default while the modified bit is still
false. -/
def divFlag : CommandLineFlag :=
  ⟨"div".data, "h".data, "c.cc".data, false, .vInt32 0, .vInt32 5, none, 4⟩

/-- Fixture validator environment: handle 0 accepts an int32 below 10 and
everything of other kinds. -/
def egVEnv : VEnv := fun _ _ v =>
  match v with
  | .vInt32 i => decide (i < 10)
  | _ => true


/-- An int32 flag named bar after mutation through all four writable fields:
modified bit set, current value changed, a validator attached. -/
def barMut : CommandLineFlag :=
  ⟨"bar".data, "h".data, "a.cc".data, true, .vInt32 0, .vInt32 7, some 0, 2⟩

/-- A flag registered only after the snapshot was taken. -/
def newFlag : CommandLineFlag :=
  ⟨"new".data, "h".data, "d.cc".data, false, .vBool false, .vBool false, none, 9⟩

/-- The fixture registry after mutation: foo deleted, bar mutated, val kept,
new registered. -/
def mutRegistry : FlagRegistry := ⟨[barMut, valFlag, newFlag]⟩

/-! Theorems.  Each claim of the specification gets one theorem below, with a
witness theorem instantiating it on the concrete fixtures when it carries
hypotheses.  Shared helper lemmas come first. -/

theorem fvType_fvNew (t : ValueType) : fvType (fvNew t) = t := by
  cases t <;> rfl

theorem fvCopyFrom_eq_of_type {dst src : FVData} (h : fvType dst = fvType src) :
    fvCopyFrom dst src = src := by
  simp [fvCopyFrom, h]

theorem parseFrom_type {t : ValueType} {v : List Char} {x : FVData}
    (h : parseFrom t v = some x) : fvType x = t := by
  cases t <;> simp only [parseFrom] at h <;> try (repeat split at h)
  all_goals simp_all [fvType]
  all_goals (try (obtain ⟨b, hb, rfl⟩ := h; rfl))
  all_goals aesop

theorem umb_current (f : CommandLineFlag) : f.UpdateModifiedBit.current = f.current := by
  unfold CommandLineFlag.UpdateModifiedBit
  split <;> rfl

theorem umb_defvalue (f : CommandLineFlag) : f.UpdateModifiedBit.defvalue = f.defvalue := by
  unfold CommandLineFlag.UpdateModifiedBit
  split <;> rfl

theorem umb_name (f : CommandLineFlag) : f.UpdateModifiedBit.name = f.name := by
  unfold CommandLineFlag.UpdateModifiedBit
  split <;> rfl

theorem umb_validate_fn (f : CommandLineFlag) :
    f.UpdateModifiedBit.validate_fn_proto = f.validate_fn_proto := by
  unfold CommandLineFlag.UpdateModifiedBit
  split <;> rfl

theorem umb_type_name (f : CommandLineFlag) : f.UpdateModifiedBit.type_name = f.type_name := by
  unfold CommandLineFlag.type_name
  rw [umb_defvalue]

theorem umb_Validate (venv : VEnv) (f : CommandLineFlag) (x : FVData) :
    f.UpdateModifiedBit.Validate venv x = f.Validate venv x := by
  unfold CommandLineFlag.Validate
  rw [umb_validate_fn, umb_name]

theorem umb_idem (f : CommandLineFlag) :
    f.UpdateModifiedBit.UpdateModifiedBit = f.UpdateModifiedBit := by
  unfold CommandLineFlag.UpdateModifiedBit
  by_cases h1 : (!f.modified && !fvEqual f.current f.defvalue) = true <;> simp [h1]

theorem umb_mono (f : CommandLineFlag) (h : f.modified = true) :
    f.UpdateModifiedBit.modified = true := by
  unfold CommandLineFlag.UpdateModifiedBit
  split <;> simp [h]

theorem tryParse_none {e : VEnv} {f : CommandLineFlag} {g : FVData} {v : List Char}
    (h : parseFrom (fvType g) v = none) :
    TryParseLocked e f g v = ⟨false, g, parseErrorMsg v f.type_name f.name⟩ := by
  unfold TryParseLocked
  simp only [fvType_fvNew, h]

theorem tryParse_invalid {e : VEnv} {f : CommandLineFlag} {g : FVData} {v : List Char}
    {t : FVData} (h : parseFrom (fvType g) v = some t) (hv : f.Validate e t = false) :
    TryParseLocked e f g v = ⟨false, g, validateErrorMsg (fvToString t) f.name⟩ := by
  unfold TryParseLocked
  simp only [fvType_fvNew, h, hv]
  rfl

theorem tryParse_ok {e : VEnv} {f : CommandLineFlag} {g : FVData} {v : List Char}
    {t : FVData} (h : parseFrom (fvType g) v = some t) (hv : f.Validate e t = true) :
    TryParseLocked e f g v = ⟨true, t, setToMsg f.name (fvToString t)⟩ := by
  unfold TryParseLocked
  simp only [fvType_fvNew, h, hv]
  rw [fvCopyFrom_eq_of_type (parseFrom_type h).symm]
  simp

theorem parseErrorMsg_ne_nil (v tn fn : List Char) : parseErrorMsg v tn fn ≠ [] := by
  intro h
  have := congrArg List.length h
  simp [parseErrorMsg] at this

theorem validateErrorMsg_ne_nil (s fn : List Char) : validateErrorMsg s fn ≠ [] := by
  intro h
  have := congrArg List.length h
  simp [validateErrorMsg] at this

theorem parse_validate_msgs_differ (v tn fn s fn2 : List Char) :
    parseErrorMsg v tn fn ≠ validateErrorMsg s fn2 := by
  intro h
  have h7 : (parseErrorMsg v tn fn)[7]? = (validateErrorMsg s fn2)[7]? := by rw [h]
  simp [parseErrorMsg, validateErrorMsg, List.getElem?_append] at h7

theorem setFlag_value_fail {e : VEnv} {f : CommandLineFlag} {v : List Char}
    (h : (TryParseLocked e f.UpdateModifiedBit f.UpdateModifiedBit.current v).ok = false) :
    SetFlagLocked e f v .SET_FLAGS_VALUE
      = ⟨false, f.UpdateModifiedBit,
          (TryParseLocked e f.UpdateModifiedBit f.UpdateModifiedBit.current v).msg⟩ := by
  simp only [SetFlagLocked, h]
  simp

theorem setFlag_ifdef_fail {e : VEnv} {f : CommandLineFlag} {v : List Char}
    (hmod : f.UpdateModifiedBit.modified = false)
    (h : (TryParseLocked e f.UpdateModifiedBit f.UpdateModifiedBit.current v).ok = false) :
    SetFlagLocked e f v .SET_FLAG_IF_DEFAULT
      = ⟨false, f.UpdateModifiedBit,
          (TryParseLocked e f.UpdateModifiedBit f.UpdateModifiedBit.current v).msg⟩ := by
  simp only [SetFlagLocked, h, hmod]
  simp

theorem setFlag_default_fail {e : VEnv} {f : CommandLineFlag} {v : List Char}
    (h : (TryParseLocked e f.UpdateModifiedBit f.UpdateModifiedBit.defvalue v).ok = false) :
    SetFlagLocked e f v .SET_FLAGS_DEFAULT
      = ⟨false, f.UpdateModifiedBit,
          (TryParseLocked e f.UpdateModifiedBit f.UpdateModifiedBit.defvalue v).msg⟩ := by
  simp only [SetFlagLocked, h]
  simp

theorem setFlag_value_ok {e : VEnv} {f : CommandLineFlag} {v : List Char}
    (h : (TryParseLocked e f.UpdateModifiedBit f.UpdateModifiedBit.current v).ok = true) :
    SetFlagLocked e f v .SET_FLAGS_VALUE
      = ⟨true, { f.UpdateModifiedBit with
          current := (TryParseLocked e f.UpdateModifiedBit f.UpdateModifiedBit.current v).value,
          modified := true },
          (TryParseLocked e f.UpdateModifiedBit f.UpdateModifiedBit.current v).msg⟩ := by
  simp only [SetFlagLocked, h]
  simp

theorem setFlag_ifdef_ok {e : VEnv} {f : CommandLineFlag} {v : List Char}
    (hmod : f.UpdateModifiedBit.modified = false)
    (h : (TryParseLocked e f.UpdateModifiedBit f.UpdateModifiedBit.current v).ok = true) :
    SetFlagLocked e f v .SET_FLAG_IF_DEFAULT
      = ⟨true, { f.UpdateModifiedBit with
          current := (TryParseLocked e f.UpdateModifiedBit f.UpdateModifiedBit.current v).value,
          modified := true },
          (TryParseLocked e f.UpdateModifiedBit f.UpdateModifiedBit.current v).msg⟩ := by
  simp only [SetFlagLocked, h, hmod]
  simp

theorem setFlag_ifdef_modified {e : VEnv} {f : CommandLineFlag} {v : List Char}
    (hmod : f.UpdateModifiedBit.modified = true) :
    SetFlagLocked e f v .SET_FLAG_IF_DEFAULT
      = ⟨true, f.UpdateModifiedBit,
          f.UpdateModifiedBit.name ++ " set to ".data
            ++ fvToString f.UpdateModifiedBit.current⟩ := by
  simp only [SetFlagLocked, hmod]
  simp

theorem setFlag_default_ok_mod {e : VEnv} {f : CommandLineFlag} {v : List Char}
    (hmod : f.UpdateModifiedBit.modified = true)
    (h : (TryParseLocked e f.UpdateModifiedBit f.UpdateModifiedBit.defvalue v).ok = true) :
    SetFlagLocked e f v .SET_FLAGS_DEFAULT
      = ⟨true, { f.UpdateModifiedBit with
          defvalue := (TryParseLocked e f.UpdateModifiedBit f.UpdateModifiedBit.defvalue v).value },
          (TryParseLocked e f.UpdateModifiedBit f.UpdateModifiedBit.defvalue v).msg⟩ := by
  simp only [SetFlagLocked, h, hmod]
  simp

theorem setFlag_default_ok_unmod {e : VEnv} {f : CommandLineFlag} {v : List Char}
    (hmod : f.UpdateModifiedBit.modified = false)
    (h : (TryParseLocked e f.UpdateModifiedBit f.UpdateModifiedBit.defvalue v).ok = true) :
    SetFlagLocked e f v .SET_FLAGS_DEFAULT
      = ⟨true,
          { f.UpdateModifiedBit with
            defvalue := (TryParseLocked e f.UpdateModifiedBit f.UpdateModifiedBit.defvalue v).value,
            current := (TryParseLocked e
              { f.UpdateModifiedBit with
                defvalue := (TryParseLocked e f.UpdateModifiedBit
                  f.UpdateModifiedBit.defvalue v).value }
              f.UpdateModifiedBit.current v).value },
          (TryParseLocked e f.UpdateModifiedBit f.UpdateModifiedBit.defvalue v).msg⟩ := by
  simp only [SetFlagLocked, h, hmod]
  simp

/-- Claim C1: in every setting mode, when the set fails because the value
string does not parse as the kind of the target value or because the
registered validator rejects the parsed value, SetFlagLocked returns false,
leaves both the current and the default value untouched, and produces a
non-empty diagnostic whose text distinguishes the parse failure from the
validation failure; moreover the attempted parse never writes through the
target: the outcome of TryParseLocked is independent of the contents of the
target value, because it parses into a fresh tentative value of the same
kind (for SET_FLAG_IF_DEFAULT a failure requires the reconciled modified bit
to be false, since a modified flag returns success without attempting a
parse). -/
theorem claim_C1 :
    (∀ (venv : VEnv) (f : CommandLineFlag) (v : List Char),
      (parseFrom (fvType f.current) v = none ∨
        (∃ t, parseFrom (fvType f.current) v = some t ∧ f.Validate venv t = false)) →
      (SetFlagLocked venv f v .SET_FLAGS_VALUE).ok = false ∧
      (SetFlagLocked venv f v .SET_FLAGS_VALUE).flag.current = f.current ∧
      (SetFlagLocked venv f v .SET_FLAGS_VALUE).flag.defvalue = f.defvalue ∧
      (SetFlagLocked venv f v .SET_FLAGS_VALUE).msg ≠ [] ∧
      (parseFrom (fvType f.current) v = none →
        (SetFlagLocked venv f v .SET_FLAGS_VALUE).msg = parseErrorMsg v f.type_name f.name) ∧
      (∀ t, parseFrom (fvType f.current) v = some t → f.Validate venv t = false →
        (SetFlagLocked venv f v .SET_FLAGS_VALUE).msg
          = validateErrorMsg (fvToString t) f.name)) ∧
    (∀ (venv : VEnv) (f : CommandLineFlag) (v : List Char),
      f.UpdateModifiedBit.modified = false →
      (parseFrom (fvType f.current) v = none ∨
        (∃ t, parseFrom (fvType f.current) v = some t ∧ f.Validate venv t = false)) →
      (SetFlagLocked venv f v .SET_FLAG_IF_DEFAULT).ok = false ∧
      (SetFlagLocked venv f v .SET_FLAG_IF_DEFAULT).flag.current = f.current ∧
      (SetFlagLocked venv f v .SET_FLAG_IF_DEFAULT).flag.defvalue = f.defvalue ∧
      (SetFlagLocked venv f v .SET_FLAG_IF_DEFAULT).msg ≠ []) ∧
    (∀ (venv : VEnv) (f : CommandLineFlag) (v : List Char),
      (parseFrom (fvType f.defvalue) v = none ∨
        (∃ t, parseFrom (fvType f.defvalue) v = some t ∧ f.Validate venv t = false)) →
      (SetFlagLocked venv f v .SET_FLAGS_DEFAULT).ok = false ∧
      (SetFlagLocked venv f v .SET_FLAGS_DEFAULT).flag.current = f.current ∧
      (SetFlagLocked venv f v .SET_FLAGS_DEFAULT).flag.defvalue = f.defvalue ∧
      (SetFlagLocked venv f v .SET_FLAGS_DEFAULT).msg ≠ []) ∧
    (∀ v tn fn s fn2 : List Char, parseErrorMsg v tn fn ≠ validateErrorMsg s fn2) ∧
    (∀ (venv : VEnv) (f : CommandLineFlag) (tgt tgt2 : FVData) (v : List Char),
      fvType tgt = fvType tgt2 →
      ((TryParseLocked venv f tgt v).ok = (TryParseLocked venv f tgt2 v).ok ∧
       (TryParseLocked venv f tgt v).msg = (TryParseLocked venv f tgt2 v).msg ∧
       ((TryParseLocked venv f tgt v).ok = false → (TryParseLocked venv f tgt v).value = tgt))) := by
  refine ⟨?_, ?_, ?_, parse_validate_msgs_differ, ?_⟩
  · intro venv f v h
    rcases h with hp | ⟨t, hp, hv⟩
    · have hp2 : parseFrom (fvType f.UpdateModifiedBit.current) v = none := by
        rw [umb_current]; exact hp
      have hE := tryParse_none (e := venv) (f := f.UpdateModifiedBit) hp2
      have hS := setFlag_value_fail (e := venv) (f := f) (v := v) (by rw [hE])
      rw [hS, hE]
      refine ⟨rfl, umb_current f, umb_defvalue f, parseErrorMsg_ne_nil _ _ _, ?_, ?_⟩
      · intro _
        rw [umb_type_name, umb_name]
      · intro t2 hp3 hv3
        rw [hp] at hp3
        cases hp3
    · have hp2 : parseFrom (fvType f.UpdateModifiedBit.current) v = some t := by
        rw [umb_current]; exact hp
      have hv2 : f.UpdateModifiedBit.Validate venv t = false := by
        rw [umb_Validate]; exact hv
      have hE := tryParse_invalid hp2 hv2
      have hS := setFlag_value_fail (e := venv) (f := f) (v := v) (by rw [hE])
      rw [hS, hE]
      refine ⟨rfl, umb_current f, umb_defvalue f, validateErrorMsg_ne_nil _ _, ?_, ?_⟩
      · intro hnone
        rw [hnone] at hp
        cases hp
      · intro t2 hp3 hv3
        rw [hp] at hp3
        cases hp3
        rw [umb_name]
  · intro venv f v hmod h
    rcases h with hp | ⟨t, hp, hv⟩
    · have hp2 : parseFrom (fvType f.UpdateModifiedBit.current) v = none := by
        rw [umb_current]; exact hp
      have hE := tryParse_none (e := venv) (f := f.UpdateModifiedBit) hp2
      have hS := setFlag_ifdef_fail (e := venv) (f := f) (v := v) hmod (by rw [hE])
      rw [hS, hE]
      exact ⟨rfl, umb_current f, umb_defvalue f, parseErrorMsg_ne_nil _ _ _⟩
    · have hp2 : parseFrom (fvType f.UpdateModifiedBit.current) v = some t := by
        rw [umb_current]; exact hp
      have hv2 : f.UpdateModifiedBit.Validate venv t = false := by
        rw [umb_Validate]; exact hv
      have hE := tryParse_invalid hp2 hv2
      have hS := setFlag_ifdef_fail (e := venv) (f := f) (v := v) hmod (by rw [hE])
      rw [hS, hE]
      exact ⟨rfl, umb_current f, umb_defvalue f, validateErrorMsg_ne_nil _ _⟩
  · intro venv f v h
    rcases h with hp | ⟨t, hp, hv⟩
    · have hp2 : parseFrom (fvType f.UpdateModifiedBit.defvalue) v = none := by
        rw [umb_defvalue]; exact hp
      have hE := tryParse_none (e := venv) (f := f.UpdateModifiedBit) hp2
      have hS := setFlag_default_fail (e := venv) (f := f) (v := v) (by rw [hE])
      rw [hS, hE]
      exact ⟨rfl, umb_current f, umb_defvalue f, parseErrorMsg_ne_nil _ _ _⟩
    · have hp2 : parseFrom (fvType f.UpdateModifiedBit.defvalue) v = some t := by
        rw [umb_defvalue]; exact hp
      have hv2 : f.UpdateModifiedBit.Validate venv t = false := by
        rw [umb_Validate]; exact hv
      have hE := tryParse_invalid hp2 hv2
      have hS := setFlag_default_fail (e := venv) (f := f) (v := v) (by rw [hE])
      rw [hS, hE]
      exact ⟨rfl, umb_current f, umb_defvalue f, validateErrorMsg_ne_nil _ _⟩
  · intro venv f tgt tgt2 v hty
    rcases hp : parseFrom (fvType tgt) v with _ | t
    · have hp2 : parseFrom (fvType tgt2) v = none := by rw [← hty]; exact hp
      rw [tryParse_none hp, tryParse_none hp2]
      exact ⟨rfl, rfl, fun _ => rfl⟩
    · have hp2 : parseFrom (fvType tgt2) v = some t := by rw [← hty]; exact hp
      rcases hv : f.Validate venv t with _ | _
      · rw [tryParse_invalid hp hv, tryParse_invalid hp2 hv]
        exact ⟨rfl, rfl, fun _ => rfl⟩
      · rw [tryParse_ok hp hv, tryParse_ok hp2 hv]
        exact ⟨rfl, rfl, by intro hc; cases hc⟩

/-- Witness for C1 on the validated int32 fixture flag: the unparsable value
abc fails with the illegal-value diagnostic, the parsable but rejected value
12 fails with the failed-validation diagnostic, and in both cases the values
are untouched and the two diagnostics differ. -/
theorem claim_C1_witness :
    (SetFlagLocked egVEnv valFlag ("abc".data) .SET_FLAGS_VALUE).ok = false ∧
    (SetFlagLocked egVEnv valFlag ("abc".data) .SET_FLAGS_VALUE).flag.current = .vInt32 0 ∧
    (SetFlagLocked egVEnv valFlag ("abc".data) .SET_FLAGS_VALUE).msg
      = parseErrorMsg ("abc".data) ("int32".data) ("val".data) ∧
    (SetFlagLocked egVEnv valFlag ("12".data) .SET_FLAGS_VALUE).ok = false ∧
    (SetFlagLocked egVEnv valFlag ("12".data) .SET_FLAGS_VALUE).flag.current = .vInt32 0 ∧
    (SetFlagLocked egVEnv valFlag ("12".data) .SET_FLAGS_VALUE).msg
      = validateErrorMsg (fvToString (.vInt32 12)) ("val".data) ∧
    parseErrorMsg ("abc".data) ("int32".data) ("val".data)
      ≠ validateErrorMsg (fvToString (.vInt32 12)) ("val".data) := by
  have h1 := claim_C1.1 egVEnv valFlag ("abc".data) (Or.inl (by decide))
  have h2 := claim_C1.1 egVEnv valFlag ("12".data)
    (Or.inr ⟨.vInt32 12, by decide, by decide⟩)
  have h3 := claim_C1.2.2.2.1 ("abc".data) ("int32".data) ("val".data)
    (fvToString (.vInt32 12)) ("val".data)
  refine ⟨h1.1, h1.2.1, ?_, h2.1, h2.2.1, ?_, h3⟩
  · exact h1.2.2.2.2.1 (by decide)
  · exact h2.2.2.2.2.2 (.vInt32 12) (by decide) (by decide)

theorem umb_modified_of_diverged {f : CommandLineFlag} (h1 : f.modified = false)
    (h2 : fvEqual f.current f.defvalue = false) :
    f.UpdateModifiedBit.modified = true := by
  unfold CommandLineFlag.UpdateModifiedBit
  simp [h1, h2]

theorem validate_set_defvalue (venv : VEnv) (f : CommandLineFlag) (x t : FVData) :
    CommandLineFlag.Validate venv { f with defvalue := x } t = f.Validate venv t := rfl

/-- Claim C5 counterexample: the claim asserts that SET_DEFAULT applied while
the modified bit is false updates both the default and the current value; but
on a flag whose storage was written directly (current 5, default 0, modified
bit still false) SET_DEFAULT of 7 succeeds, updates only the default, and
leaves current at 5, because SetFlagLocked first reconciles the modified bit
to true. -/
theorem claim_C5_counterexample :
    divFlag.modified = false ∧
    parseFrom (fvType divFlag.defvalue) ("7".data) = some (.vInt32 7) ∧
    divFlag.Validate (fun _ _ _ => true) (.vInt32 7) = true ∧
    (SetFlagLocked (fun _ _ _ => true) divFlag ("7".data) .SET_FLAGS_DEFAULT).ok = true ∧
    (SetFlagLocked (fun _ _ _ => true) divFlag ("7".data) .SET_FLAGS_DEFAULT).flag.defvalue
      = .vInt32 7 ∧
    (SetFlagLocked (fun _ _ _ => true) divFlag ("7".data) .SET_FLAGS_DEFAULT).flag.current
      = .vInt32 5 := by
  decide

/-- Claim C5 (amended): for every flag whose two values have the same kind and
every value string that parses and validates, SET_DEFAULT updates the default
value; when the flag is unmodified after the reconciliation of the modified
bit with the stored values (bit false and current equal to the default), the
current value is updated to the same value as well and the bit stays false;
when the reconciled bit is true, only the default changes, and current and
the bit are left as reconciled. -/
theorem claim_C5 :
    ∀ (venv : VEnv) (f : CommandLineFlag) (v : List Char) (t : FVData),
      FlagWF f →
      parseFrom (fvType f.defvalue) v = some t →
      f.Validate venv t = true →
      (SetFlagLocked venv f v .SET_FLAGS_DEFAULT).ok = true ∧
      (SetFlagLocked venv f v .SET_FLAGS_DEFAULT).flag.defvalue = t ∧
      (f.UpdateModifiedBit.modified = false →
        (SetFlagLocked venv f v .SET_FLAGS_DEFAULT).flag.current = t ∧
        (SetFlagLocked venv f v .SET_FLAGS_DEFAULT).flag.modified = false) ∧
      (f.UpdateModifiedBit.modified = true →
        (SetFlagLocked venv f v .SET_FLAGS_DEFAULT).flag.current = f.current ∧
        (SetFlagLocked venv f v .SET_FLAGS_DEFAULT).flag.modified = true) := by
  intro venv f v t hwf hp hv
  have hp2 : parseFrom (fvType f.UpdateModifiedBit.defvalue) v = some t := by
    rw [umb_defvalue]; exact hp
  have hv2 : f.UpdateModifiedBit.Validate venv t = true := by
    rw [umb_Validate]; exact hv
  have hE := tryParse_ok (e := venv) hp2 hv2
  rcases hmod : f.UpdateModifiedBit.modified with _ | _
  · have hS := setFlag_default_ok_unmod (e := venv) (f := f) (v := v) hmod (by rw [hE])
    have hp3 : parseFrom (fvType f.UpdateModifiedBit.current) v = some t := by
      rw [umb_current, hwf]; exact hp
    have hv3 : CommandLineFlag.Validate venv
        { f.UpdateModifiedBit with defvalue := t } t = true := by
      rw [validate_set_defvalue, umb_Validate]; exact hv
    have hE2 := tryParse_ok (e := venv) (f := { f.UpdateModifiedBit with defvalue := t })
      (g := f.UpdateModifiedBit.current) hp3 hv3
    rw [hS]
    simp only [hE, hE2]
    simp [hmod, umb_current]
  · have hS := setFlag_default_ok_mod (e := venv) (f := f) (v := v) hmod (by rw [hE])
    rw [hS, hE]
    refine ⟨rfl, rfl, ?_, ?_⟩
    · intro hc
      cases hc
    · intro _
      exact ⟨umb_current f, hmod⟩

/-- Witness for C5 on the unmodified fixture flag bar: SET_DEFAULT of 3
succeeds and pushes 3 into both the default and the current value. -/
theorem claim_C5_witness :
    (SetFlagLocked egVEnv barFlag ("3".data) .SET_FLAGS_DEFAULT).ok = true ∧
    (SetFlagLocked egVEnv barFlag ("3".data) .SET_FLAGS_DEFAULT).flag.defvalue = .vInt32 3 ∧
    (SetFlagLocked egVEnv barFlag ("3".data) .SET_FLAGS_DEFAULT).flag.current = .vInt32 3 := by
  have h := claim_C5 egVEnv barFlag ("3".data) (.vInt32 3) (by decide) (by decide) (by decide)
  exact ⟨h.1, h.2.1, (h.2.2.1 (by decide)).1⟩

/-- Claim C9: every SetFlagLocked call first reconciles the modified bit with
the stored values (the call on f equals the call on the reconciled flag);
consequently, on a flag whose bound storage was written directly so that
current differs from default while the bit is false, SET_IF_DEFAULT succeeds
trivially and leaves the directly written current value in place, and
SET_DEFAULT (with a parsing, validating value) updates only the default. -/
theorem claim_C9 :
    (∀ (venv : VEnv) (f : CommandLineFlag) (v : List Char) (m : FlagSettingMode),
      SetFlagLocked venv f v m = SetFlagLocked venv f.UpdateModifiedBit v m) ∧
    (∀ (venv : VEnv) (f : CommandLineFlag) (v : List Char),
      f.modified = false → fvEqual f.current f.defvalue = false →
      (SetFlagLocked venv f v .SET_FLAG_IF_DEFAULT).ok = true ∧
      (SetFlagLocked venv f v .SET_FLAG_IF_DEFAULT).flag.current = f.current) ∧
    (∀ (venv : VEnv) (f : CommandLineFlag) (v : List Char) (t : FVData),
      f.modified = false → fvEqual f.current f.defvalue = false →
      parseFrom (fvType f.defvalue) v = some t →
      f.Validate venv t = true →
      (SetFlagLocked venv f v .SET_FLAGS_DEFAULT).ok = true ∧
      (SetFlagLocked venv f v .SET_FLAGS_DEFAULT).flag.defvalue = t ∧
      (SetFlagLocked venv f v .SET_FLAGS_DEFAULT).flag.current = f.current) := by
  refine ⟨?_, ?_, ?_⟩
  · intro venv f v m
    simp only [SetFlagLocked, umb_idem]
  · intro venv f v h1 h2
    have hmod := umb_modified_of_diverged h1 h2
    rw [setFlag_ifdef_modified (e := venv) (v := v) hmod]
    exact ⟨rfl, umb_current f⟩
  · intro venv f v t h1 h2 hp hv
    have hmod := umb_modified_of_diverged h1 h2
    have hp2 : parseFrom (fvType f.UpdateModifiedBit.defvalue) v = some t := by
      rw [umb_defvalue]; exact hp
    have hv2 : f.UpdateModifiedBit.Validate venv t = true := by
      rw [umb_Validate]; exact hv
    have hE := tryParse_ok (e := venv) hp2 hv2
    have hS := setFlag_default_ok_mod (e := venv) (f := f) (v := v) hmod (by rw [hE])
    rw [hS, hE]
    exact ⟨rfl, rfl, umb_current f⟩

/-- Witness for C9 on the fixture flag with directly written storage: the
reconcile-first equation at SET_FLAGS_VALUE, the trivial SET_IF_DEFAULT
success preserving the direct write, and the default-only SET_DEFAULT. -/
theorem claim_C9_witness :
    SetFlagLocked egVEnv divFlag ("7".data) .SET_FLAGS_VALUE
      = SetFlagLocked egVEnv divFlag.UpdateModifiedBit ("7".data) .SET_FLAGS_VALUE ∧
    (SetFlagLocked egVEnv divFlag ("7".data) .SET_FLAG_IF_DEFAULT).ok = true ∧
    (SetFlagLocked egVEnv divFlag ("7".data) .SET_FLAG_IF_DEFAULT).flag.current = .vInt32 5 ∧
    (SetFlagLocked egVEnv divFlag ("7".data) .SET_FLAGS_DEFAULT).flag.defvalue = .vInt32 7 ∧
    (SetFlagLocked egVEnv divFlag ("7".data) .SET_FLAGS_DEFAULT).flag.current = .vInt32 5 := by
  have h1 := claim_C9.1 egVEnv divFlag ("7".data) .SET_FLAGS_VALUE
  have h2 := claim_C9.2.1 egVEnv divFlag ("7".data) (by decide) (by decide)
  have h3 := claim_C9.2.2 egVEnv divFlag ("7".data) (.vInt32 7)
    (by decide) (by decide) (by decide) (by decide)
  exact ⟨h1, h2.1, h2.2, h3.2.1, h3.2.2⟩

/-- Claim C6: the modified bit is monotone across the registry operations
(SetFlagLocked in every mode, UpdateModifiedBit, the info export; lookups do
not write flags in this functional model): once true it stays true; the sole
exception is the explicit snapshot-restore path CommandLineFlag::CopyFrom,
which can write it back to false. -/
theorem claim_C6 :
    (∀ (venv : VEnv) (f : CommandLineFlag) (v : List Char) (m : FlagSettingMode),
      f.modified = true → (SetFlagLocked venv f v m).flag.modified = true) ∧
    (∀ f : CommandLineFlag, f.modified = true → f.UpdateModifiedBit.modified = true) ∧
    (∀ f : CommandLineFlag, f.modified = true →
      (f.FillCommandLineFlagInfo).2.modified = true) ∧
    (∃ f src : CommandLineFlag, f.modified = true ∧ (f.CopyFrom src).modified = false) := by
  refine ⟨?_, umb_mono, ?_, ?_⟩
  · intro venv f v m h
    have hmod := umb_mono f h
    cases m
    · rcases hok : (TryParseLocked venv f.UpdateModifiedBit f.UpdateModifiedBit.current v).ok
        with _ | _
      · rw [setFlag_value_fail hok]
        exact hmod
      · rw [setFlag_value_ok hok]
    · rw [setFlag_ifdef_modified hmod]
      exact hmod
    · rcases hok : (TryParseLocked venv f.UpdateModifiedBit f.UpdateModifiedBit.defvalue v).ok
        with _ | _
      · rw [setFlag_default_fail hok]
        exact hmod
      · rw [setFlag_default_ok_mod hmod hok]
        exact hmod
  · intro f h
    exact umb_mono f h
  · exact ⟨{ divFlag with modified := true }, divFlag, by decide, by decide⟩

/-- Witness for C6: setting a value on an already modified flag keeps the bit;
reconciliation keeps it; the info export keeps it. -/
theorem claim_C6_witness :
    (SetFlagLocked egVEnv { barFlag with modified := true } ("9".data)
      .SET_FLAGS_VALUE).flag.modified = true ∧
    ({ barFlag with modified := true } : CommandLineFlag).UpdateModifiedBit.modified = true ∧
    (({ barFlag with modified := true } : CommandLineFlag).FillCommandLineFlagInfo).2.modified
      = true := by
  refine ⟨?_, ?_, ?_⟩
  · exact claim_C6.1 egVEnv { barFlag with modified := true } ("9".data)
      .SET_FLAGS_VALUE (by decide)
  · exact claim_C6.2.1 { barFlag with modified := true } (by decide)
  · exact claim_C6.2.2.1 { barFlag with modified := true } (by decide)

/-- Claim C4: for a token whose name part is noX with no flag named noX
registered, the token resolves to the boolean flag X with effective value 0;
if X does not exist the unknown-flag error is reported with no flag resolved;
if X exists but is not boolean the boolean-for-non-boolean type error is
reported with no flag resolved; and a directly resolved boolean flag with no
inline value gets effective value 1.  SplitArgumentLocked only reads the
registry, so no flag is modified in the error cases by construction. -/
theorem claim_C4 :
    (∀ (r : FlagRegistry) (arg foo : List Char) (g : CommandLineFlag),
      (splitEq arg).1 = 'n' :: 'o' :: foo →
      r.FindFlagLocked ('n' :: 'o' :: foo) = none →
      r.FindFlagLocked foo = some g →
      g.type_name = "bool".data →
      r.SplitArgumentLocked arg = ⟨some g, foo, some ("0".data), []⟩) ∧
    (∀ (r : FlagRegistry) (arg foo : List Char),
      (splitEq arg).1 = 'n' :: 'o' :: foo →
      r.FindFlagLocked ('n' :: 'o' :: foo) = none →
      r.FindFlagLocked foo = none →
      (r.SplitArgumentLocked arg).flag = none ∧
      (r.SplitArgumentLocked arg).error_message = unknownFlagMsg ('n' :: 'o' :: foo) ∧
      (r.SplitArgumentLocked arg).error_message ≠ []) ∧
    (∀ (r : FlagRegistry) (arg foo : List Char) (g : CommandLineFlag),
      (splitEq arg).1 = 'n' :: 'o' :: foo →
      r.FindFlagLocked ('n' :: 'o' :: foo) = none →
      r.FindFlagLocked foo = some g →
      g.type_name ≠ "bool".data →
      (r.SplitArgumentLocked arg).flag = none ∧
      (r.SplitArgumentLocked arg).error_message
        = boolNonBoolMsg ('n' :: 'o' :: foo) g.type_name ∧
      (r.SplitArgumentLocked arg).error_message ≠ []) ∧
    (∀ (r : FlagRegistry) (arg : List Char) (g : CommandLineFlag),
      (splitEq arg).2 = none →
      r.FindFlagLocked (splitEq arg).1 = some g →
      g.type_name = "bool".data →
      r.SplitArgumentLocked arg = ⟨some g, (splitEq arg).1, some ("1".data), []⟩) := by
  refine ⟨?_, ?_, ?_, ?_⟩
  · intro r arg foo g hkey hno hfoo hbool
    unfold FlagRegistry.SplitArgumentLocked
    simp only [hkey, hno, hfoo]
    simp [hbool]
  · intro r arg foo hkey hno hfoo
    unfold FlagRegistry.SplitArgumentLocked
    simp only [hkey, hno, hfoo]
    simp [unknownFlagMsg]
  · intro r arg foo g hkey hno hfoo hnotbool
    unfold FlagRegistry.SplitArgumentLocked
    simp only [hkey, hno, hfoo]
    simp [hnotbool, boolNonBoolMsg]
  · intro r arg g hval hfind hbool
    unfold FlagRegistry.SplitArgumentLocked
    simp [hval, hfind, hbool]

/-- Witness for C4 on the fixture registry: token nofoo resolves to the
boolean flag foo with value 0; token nobaz is an unknown flag; token nobar is
a type error; token foo with no value resolves with value 1. -/
theorem claim_C4_witness :
    egRegistry.SplitArgumentLocked ("nofoo".data)
      = ⟨some fooFlag, "foo".data, some ("0".data), []⟩ ∧
    (egRegistry.SplitArgumentLocked ("nobaz".data)).flag = none ∧
    (egRegistry.SplitArgumentLocked ("nobaz".data)).error_message ≠ [] ∧
    (egRegistry.SplitArgumentLocked ("nobar".data)).flag = none ∧
    (egRegistry.SplitArgumentLocked ("nobar".data)).error_message
      = boolNonBoolMsg ("nobar".data) ("int32".data) ∧
    egRegistry.SplitArgumentLocked ("foo".data)
      = ⟨some fooFlag, "foo".data, some ("1".data), []⟩ := by
  refine ⟨?_, ?_, ?_, ?_, ?_, ?_⟩
  · exact claim_C4.1 egRegistry ("nofoo".data) ("foo".data) fooFlag
      (by decide) (by decide) (by decide) (by decide)
  · exact (claim_C4.2.1 egRegistry ("nobaz".data) ("baz".data)
      (by decide) (by decide) (by decide)).1
  · exact (claim_C4.2.1 egRegistry ("nobaz".data) ("baz".data)
      (by decide) (by decide) (by decide)).2.2
  · exact (claim_C4.2.2.1 egRegistry ("nobar".data) ("bar".data) barFlag
      (by decide) (by decide) (by decide) (by decide)).1
  · exact (claim_C4.2.2.1 egRegistry ("nobar".data) ("bar".data) barFlag
      (by decide) (by decide) (by decide) (by decide)).2.1
  · exact claim_C4.2.2.2 egRegistry ("foo".data) fooFlag
      (by decide) (by decide) (by decide)

/-- Claim C10: AddFlagValidator succeeds only when the supplied pointer is the
current-value storage address of a registered flag; re-registering the very
validator already held returns true without change; registering a different
function while one is registered returns false and keeps the existing one;
an unmatched pointer returns false and changes nothing; and on a free slot the
validator is stored, so a flag holds at most one validator at a time. -/
theorem claim_C10 :
    (∀ (r : FlagRegistry) (p : Nat) (fn : Option Nat),
      r.FindFlagViaPtrLocked p = none → AddFlagValidator r p fn = (false, r)) ∧
    (∀ (r : FlagRegistry) (p : Nat) (g : CommandLineFlag),
      r.FindFlagViaPtrLocked p = some g →
      AddFlagValidator r p g.validate_fn_proto = (true, r)) ∧
    (∀ (r : FlagRegistry) (p : Nat) (g : CommandLineFlag) (w v : Nat),
      r.FindFlagViaPtrLocked p = some g →
      g.validate_fn_proto = some v → w ≠ v →
      AddFlagValidator r p (some w) = (false, r)) ∧
    (∀ (r : FlagRegistry) (p : Nat) (fn : Option Nat),
      (AddFlagValidator r p fn).1 = true → ∃ g, r.FindFlagViaPtrLocked p = some g) ∧
    (∀ (r : FlagRegistry) (p : Nat) (g : CommandLineFlag) (w : Nat),
      r.FindFlagViaPtrLocked p = some g →
      g.validate_fn_proto = none →
      AddFlagValidator r p (some w)
        = (true, r.updateFlagByPtr p { g with validate_fn_proto := some w })) := by
  refine ⟨?_, ?_, ?_, ?_, ?_⟩
  · intro r p fn h
    unfold AddFlagValidator
    simp [h]
  · intro r p g h
    unfold AddFlagValidator
    simp [h]
  · intro r p g w v h hv hne
    unfold AddFlagValidator
    simp [h, hv, hne]
  · intro r p fn h
    unfold AddFlagValidator at h
    rcases hf : r.FindFlagViaPtrLocked p with _ | g
    · rw [hf] at h
      simp at h
    · exact ⟨g, rfl⟩
  · intro r p g w h hv
    unfold AddFlagValidator
    simp [h, hv]

/-- Witness for C10 on the fixture registry: an unmatched pointer fails; the
validator of val can be re-registered; a second, different validator for val
is refused; registering a first validator for bar succeeds and stores it. -/
theorem claim_C10_witness :
    AddFlagValidator egRegistry 99 (some 4) = (false, egRegistry) ∧
    AddFlagValidator egRegistry 3 (some 0) = (true, egRegistry) ∧
    AddFlagValidator egRegistry 3 (some 7) = (false, egRegistry) ∧
    AddFlagValidator egRegistry 2 (some 7)
      = (true, egRegistry.updateFlagByPtr 2 { barFlag with validate_fn_proto := some 7 }) := by
  refine ⟨?_, ?_, ?_, ?_⟩
  · exact claim_C10.1 egRegistry 99 (some 4) (by decide)
  · have h := claim_C10.2.1 egRegistry 3 valFlag (by decide)
    simpa [valFlag] using h
  · exact claim_C10.2.2.1 egRegistry 3 valFlag 7 0 (by decide) (by decide) (by decide)
  · exact claim_C10.2.2.2.2 egRegistry 2 barFlag 7 (by decide) (by decide)


theorem isDecDigit_not_space {c : Char} (h : isDecDigit c = true) : isCSpace c = false := by
  by_contra hc
  simp only [Bool.not_eq_false] at hc
  simp only [isCSpace, Bool.or_eq_true, beq_iff_eq] at hc
  rcases hc with ((((rfl | rfl) | rfl) | rfl) | rfl) | rfl <;> revert h <;> decide

theorem some_beq_false {c x : Char} (h : isDecDigit c = true) (hx : isDecDigit x = false) :
    (some c == some x) = false := by
  simp only [beq_eq_false_iff_ne, ne_eq, Option.some.injEq]
  intro he
  subst he
  rw [h] at hx
  cases hx

theorem takeWhile_all {p : Char → Bool} : ∀ {l : List Char}, (∀ c ∈ l, p c = true) →
    l.takeWhile p = l
  | [], _ => rfl
  | c :: l, h => by
    rw [List.takeWhile_cons_of_pos (h c (List.mem_cons_self c l))]
    rw [takeWhile_all (fun x hx => h x (List.mem_cons_of_mem c hx))]

theorem intScanFront_digits {d : Char} {rest : List Char}
    (hall : ∀ c ∈ d :: rest, isDecDigit c = true) :
    intScanFront (d :: rest) 10 = (false, (d :: rest).length, d :: rest) := by
  have hd := hall d (List.mem_cons_self d rest)
  unfold intScanFront
  rw [List.takeWhile_cons_of_neg (by simp [isDecDigit_not_space hd]),
      List.dropWhile_cons_of_neg (by simp [isDecDigit_not_space hd])]
  simp only [List.head?_cons, some_beq_false hd (by decide : isDecDigit '-' = false),
    some_beq_false hd (by decide : isDecDigit '+' = false), Bool.or_self, Bool.false_eq_true,
    if_false, List.length_nil]
  have h16 : ((10 : Nat) == 16) = false := by decide
  simp only [h16, Bool.false_and, Bool.false_eq_true, if_false, List.drop_zero]
  rw [takeWhile_all (p := isDigitInBase 10) (by simpa [isDigitInBase] using hall)]
  simp



theorem strto64_digits {d : Char} {rest : List Char}
    (hall : ∀ c ∈ d :: rest, isDecDigit c = true)
    (hbound : digitsVal 10 (d :: rest) ≤ 2 ^ 63 - 1) :
    strto64 (d :: rest) 10
      = ⟨(digitsVal 10 (d :: rest) : Int), (d :: rest).length, false⟩ := by
  unfold strto64
  rw [intScanFront_digits hall]
  simp only [List.isEmpty_cons, Bool.false_eq_true, if_false]
  have h1 : ¬((digitsVal 10 (d :: rest) : Int) < -(2 ^ 63)) := by
    have := Int.natCast_nonneg (digitsVal 10 (d :: rest))
    omega
  have h2 : ¬((2 ^ 63 - 1 : Int) < (digitsVal 10 (d :: rest) : Int)) := by
    have : (digitsVal 10 (d :: rest) : Int) ≤ (2 : Int) ^ 63 - 1 := by
      push_cast
      omega
    omega
  rw [if_neg h1, if_neg h2]

theorem strtou64_digits {d : Char} {rest : List Char}
    (hall : ∀ c ∈ d :: rest, isDecDigit c = true)
    (hbound : digitsVal 10 (d :: rest) ≤ 2 ^ 64 - 1) :
    strtou64 (d :: rest) 10
      = ⟨digitsVal 10 (d :: rest), (d :: rest).length, false⟩ := by
  unfold strtou64
  rw [intScanFront_digits hall]
  simp only [List.isEmpty_cons, Bool.false_eq_true, if_false]
  rw [if_neg (by omega)]

theorem numBase_digits {d : Char} {rest : List Char}
    (hall : ∀ c ∈ d :: rest, isDecDigit c = true) :
    numBase (d :: rest) = 10 := by
  unfold numBase
  cases rest with
  | nil => simp
  | cons c t =>
    have hc := hall c (by simp)
    simp [some_beq_false hc (by decide : isDecDigit 'x' = false),
          some_beq_false hc (by decide : isDecDigit 'X' = false)]

theorem int32Cast_of_range {m : Int} (h1 : -(2 ^ 31) ≤ m) (h2 : m < 2 ^ 31) :
    int32Cast m = m := by
  unfold int32Cast
  rw [Int.emod_eq_of_lt (by omega) (by omega)]
  omega

theorem parseFrom_int32_digits {d : Char} {rest : List Char}
    (hall : ∀ c ∈ d :: rest, isDecDigit c = true)
    (hbound : digitsVal 10 (d :: rest) < 2 ^ 31) :
    parseFrom .fvInt32 (d :: rest) = some (.vInt32 (digitsVal 10 (d :: rest))) := by
  unfold parseFrom
  simp only [reduceIte, List.isEmpty_cons, Bool.false_eq_true, if_false]
  rw [numBase_digits hall, strto64_digits hall (by omega)]
  have hc : int32Cast ((digitsVal 10 (d :: rest) : Int)) = (digitsVal 10 (d :: rest) : Int) := by
    refine int32Cast_of_range ?_ ?_
    · have := Int.natCast_nonneg (digitsVal 10 (d :: rest))
      omega
    · push_cast
      omega
  simp [hc]


theorem parseFrom_uint32_digits {d : Char} {rest : List Char}
    (hall : ∀ c ∈ d :: rest, isDecDigit c = true)
    (hbound : digitsVal 10 (d :: rest) < 2 ^ 32) :
    parseFrom .fvUInt32 (d :: rest) = some (.vUInt32 (digitsVal 10 (d :: rest))) := by
  have hd := hall d (List.mem_cons_self d rest)
  unfold parseFrom
  simp only [reduceIte, List.isEmpty_cons, Bool.false_eq_true, if_false]
  rw [numBase_digits hall,
      List.dropWhile_cons_of_neg (by simp only [beq_iff_eq]; intro he; subst he; revert hd; decide)]
  simp only [List.head?_cons, some_beq_false hd (by decide : isDecDigit '-' = false),
    Bool.false_eq_true, if_false]
  rw [strtou64_digits hall (by omega)]
  have hc : uint32Cast (digitsVal 10 (d :: rest)) = digitsVal 10 (d :: rest) := by
    unfold uint32Cast
    omega
  simp [hc]

theorem parseFrom_int64_digits {d : Char} {rest : List Char}
    (hall : ∀ c ∈ d :: rest, isDecDigit c = true)
    (hbound : digitsVal 10 (d :: rest) < 2 ^ 63) :
    parseFrom .fvInt64 (d :: rest) = some (.vInt64 (digitsVal 10 (d :: rest))) := by
  unfold parseFrom
  simp only [reduceIte, List.isEmpty_cons, Bool.false_eq_true, if_false]
  rw [numBase_digits hall, strto64_digits hall (by omega)]
  simp

theorem parseFrom_uint64_digits {d : Char} {rest : List Char}
    (hall : ∀ c ∈ d :: rest, isDecDigit c = true)
    (hbound : digitsVal 10 (d :: rest) < 2 ^ 64) :
    parseFrom .fvUInt64 (d :: rest) = some (.vUInt64 (digitsVal 10 (d :: rest))) := by
  have hd := hall d (List.mem_cons_self d rest)
  unfold parseFrom
  simp only [reduceIte, List.isEmpty_cons, Bool.false_eq_true, if_false]
  rw [numBase_digits hall,
      List.dropWhile_cons_of_neg (by simp only [beq_iff_eq]; intro he; subst he; revert hd; decide)]
  simp only [List.head?_cons, some_beq_false hd (by decide : isDecDigit '-' = false),
    Bool.false_eq_true, if_false]
  rw [strtou64_digits hall (by omega)]
  simp


theorem isDecDigit_le {c : Char} (h : isDecDigit c = true) : '0' ≤ c ∧ c ≤ '9' := by
  simp only [isDecDigit, Bool.and_eq_true, decide_eq_true_eq] at h
  exact h

theorem lowerChar_digit {c : Char} (h : isDecDigit c = true) : lowerChar c = c := by
  unfold lowerChar
  rw [if_neg]
  simp only [Bool.and_eq_true, decide_eq_true_eq, not_and]
  intro h1 h2
  exact absurd (le_trans h1 (isDecDigit_le h).2) (by decide)

theorem isDecDigit_ne_of {c x : Char} (h : isDecDigit c = true)
    (hx : isDecDigit x = false) : c ≠ x := by
  intro he
  subst he
  rw [h] at hx
  cases hx

theorem strcaseEq_head_ne {d b : Char} {as bs : List Char}
    (h : lowerChar d ≠ lowerChar b) : strcaseEq (d :: as) (b :: bs) = false := by
  unfold strcaseEq
  simp only [List.map_cons, beq_eq_false_iff_ne, ne_eq]
  intro hc
  exact h (List.cons.inj hc).1

theorem finishD_smallNat (m : Int) (h0 : 0 ≤ m) (h : m < 2 ^ 64) (c : Nat) :
    finishD false m 0 0 c = ⟨DoubleVal.fin m 0 0, c, false⟩ := by
  have hbig : (2 : Int) ^ 64 ≤ (2 ^ 54 - 1) * 2 ^ 970 := by
    have h1 : (2 : Int) ^ 64 ≤ 2 ^ 970 := by
      apply pow_le_pow_right₀ (by norm_num) (by norm_num)
    have h2 : (1 : Int) * 2 ^ 970 ≤ (2 ^ 54 - 1) * 2 ^ 970 := by
      apply mul_le_mul_of_nonneg_right (by norm_num) (by positivity)
    linarith
  have hov : dfinCmp 2 (2 ^ 54 - 1) 0 970 m 0 0 = false := by
    unfold dfinCmp
    simp only [show ((0 : Int) - min 0 0).toNat = 0 by decide,
      show ((970 : Int) - min 970 0).toNat = 970 by decide,
      show ((0 : Int) - min 970 0).toNat = 0 by decide,
      Nat.pow_eq, pow_zero, one_mul, mul_one, Nat.reduceBEq, Bool.false_eq_true, if_false,
      decide_eq_false_iff_not, not_le]
    push_cast
    linarith
  have hun : (m != 0 && dfinCmp 1 m 0 0 1 0 (-1022)) = false := by
    rcases eq_or_ne m 0 with rfl | hm
    · simp
    · have hone : (1 : Int) ≤ m := by omega
      have hc2 : dfinCmp 1 m 0 0 1 0 (-1022) = false := by
        unfold dfinCmp
        simp only [show ((0 : Int) - min 0 0).toNat = 0 by decide,
          show ((0 : Int) - min 0 (-1022)).toNat = 1022 by decide,
          show ((-1022 : Int) - min 0 (-1022)).toNat = 0 by decide,
          Nat.pow_eq, pow_zero, one_mul, mul_one, Nat.reduceBEq, Bool.false_eq_true, if_false,
          if_true, decide_eq_false_iff_not, not_lt]
        push_cast
        have h2 : (1 : Int) * 2 ^ 1022 ≤ m * 2 ^ 1022 := by
          refine mul_le_mul_of_nonneg_right hone ?_
          positivity
        have h3 : (0 : Int) < 2 ^ 1022 := by positivity
        linarith
      simp [hc2]
  unfold finishD
  rw [hov, hun]
  simp


theorem decScan_digits {d : Char} {rest : List Char}
    (hall : ∀ c ∈ d :: rest, isDecDigit c = true)
    (hbound : digitsVal 10 (d :: rest) < 2 ^ 64) :
    decScan false 0 (d :: rest)
      = ⟨DoubleVal.fin (digitsVal 10 (d :: rest)) 0 0, (d :: rest).length, false⟩ := by
  unfold decScan
  rw [takeWhile_all (p := isDecDigit) hall]
  simp only [List.drop_length, List.head?_nil, Option.none_beq_some, List.isEmpty_cons,
    Bool.false_eq_true, if_false, Bool.false_and, Bool.and_false, List.length_nil]
  simp only [scanExp, List.head?_nil, Option.none_beq_some, Bool.or_self, Bool.false_eq_true,
    if_false]
  simp only [digitsVal, List.foldl_nil, pow_zero, mul_one, Nat.cast_zero, add_zero,
    Int.sub_zero, zero_add, add_zero, List.length_nil]
  have := finishD_smallNat (digitsVal 10 (d :: rest) : Int)
    (Int.natCast_nonneg _) (by push_cast; omega) ((d :: rest).length)
  exact this


theorem lowerChar_ne_of_digit {c x : Char} (h : isDecDigit c = true)
    (hx : isDecDigit (lowerChar x) = false) : lowerChar c ≠ lowerChar x := by
  rw [lowerChar_digit h]
  intro he
  rw [he, hx] at h
  cases h

theorem strtodModel_digits {d : Char} {rest : List Char}
    (hall : ∀ c ∈ d :: rest, isDecDigit c = true)
    (hbound : digitsVal 10 (d :: rest) < 2 ^ 64) :
    strtodModel (d :: rest)
      = ⟨DoubleVal.fin (digitsVal 10 (d :: rest)) 0 0, (d :: rest).length, false⟩ := by
  have hd := hall d (List.mem_cons_self d rest)
  unfold strtodModel
  rw [List.takeWhile_cons_of_neg (by simp [isDecDigit_not_space hd]),
      List.dropWhile_cons_of_neg (by simp [isDecDigit_not_space hd])]
  simp only [List.head?_cons, some_beq_false hd (by decide : isDecDigit '-' = false),
    some_beq_false hd (by decide : isDecDigit '+' = false), Bool.or_self, Bool.false_eq_true,
    if_false, List.length_nil, List.take_succ_cons]
  rw [strcaseEq_head_ne (lowerChar_ne_of_digit hd (by decide)),
      strcaseEq_head_ne (lowerChar_ne_of_digit hd (by decide)),
      strcaseEq_head_ne (lowerChar_ne_of_digit hd (by decide))]
  have hx2 : (((d :: rest) : List Char).tail.head? == some 'x') = false ∧
      (((d :: rest) : List Char).tail.head? == some 'X') = false := by
    cases rest with
    | nil => exact ⟨rfl, rfl⟩
    | cons c t =>
      have hc := hall c (by simp)
      exact ⟨some_beq_false hc (by decide), some_beq_false hc (by decide)⟩
  simp only [Bool.false_eq_true, if_false, hx2.1, hx2.2, Bool.or_self, Bool.and_false,
    Bool.false_and]
  have hD := decScan_digits hall hbound
  simpa using hD


theorem isHexDigit_not_special {c : Char} (h : isHexDigit c = true) :
    isCSpace c = false := by
  simp only [isHexDigit, Bool.or_eq_true] at h
  by_contra hc
  simp only [Bool.not_eq_false] at hc
  simp only [isCSpace, Bool.or_eq_true, beq_iff_eq] at hc
  rcases hc with ((((rfl | rfl) | rfl) | rfl) | rfl) | rfl <;> revert h <;> decide

theorem intScanFront_hex {c : Char} {t : List Char}
    (hall : ∀ x ∈ c :: t, isHexDigit x = true) :
    intScanFront ('0' :: 'x' :: c :: t) 16 = (false, 2 + (c :: t).length, c :: t) := by
  have hc := hall c (List.mem_cons_self c t)
  unfold intScanFront
  rw [List.takeWhile_cons_of_neg (by decide), List.dropWhile_cons_of_neg (by decide)]
  simp only [List.head?_cons, List.tail_cons,
    show (some '0' == some '-') = false from rfl, show (some '0' == some '+') = false from rfl,
    Bool.or_self, Bool.false_eq_true, if_false,
    show ((16 : Nat) == 16) = true from rfl, show (some '0' == some '0') = true from rfl,
    show (some 'x' == some 'x') = true from rfl, Bool.true_or, Bool.true_and,
    Option.map_some', Option.getD_some, hc, if_true, List.length_nil]
  rw [show List.drop 2 ('0' :: 'x' :: c :: t) = c :: t from rfl,
      takeWhile_all (p := isDigitInBase 16) (by simpa [isDigitInBase] using hall)]

theorem numBase_hex (v : List Char) : numBase ('0' :: 'x' :: v) = 16 := by
  unfold numBase
  simp

theorem strto64_hex {c : Char} {t : List Char}
    (hall : ∀ x ∈ c :: t, isHexDigit x = true)
    (hbound : digitsVal 16 (c :: t) ≤ 2 ^ 63 - 1) :
    strto64 ('0' :: 'x' :: c :: t) 16
      = ⟨(digitsVal 16 (c :: t) : Int), 2 + (c :: t).length, false⟩ := by
  unfold strto64
  rw [intScanFront_hex hall]
  simp only [List.isEmpty_cons, Bool.false_eq_true, if_false]
  have h1 : ¬((digitsVal 16 (c :: t) : Int) < -(2 ^ 63)) := by
    have := Int.natCast_nonneg (digitsVal 16 (c :: t))
    omega
  have h2 : ¬((2 ^ 63 - 1 : Int) < (digitsVal 16 (c :: t) : Int)) := by
    have : (digitsVal 16 (c :: t) : Int) ≤ (2 : Int) ^ 63 - 1 := by
      push_cast
      omega
    omega
  rw [if_neg h1, if_neg h2]

theorem strtou64_hex {c : Char} {t : List Char}
    (hall : ∀ x ∈ c :: t, isHexDigit x = true)
    (hbound : digitsVal 16 (c :: t) ≤ 2 ^ 64 - 1) :
    strtou64 ('0' :: 'x' :: c :: t) 16
      = ⟨digitsVal 16 (c :: t), 2 + (c :: t).length, false⟩ := by
  unfold strtou64
  rw [intScanFront_hex hall]
  simp only [List.isEmpty_cons, Bool.false_eq_true, if_false]
  rw [if_neg (by omega)]

theorem parseFrom_int32_hex {c : Char} {t : List Char}
    (hall : ∀ x ∈ c :: t, isHexDigit x = true)
    (hbound : digitsVal 16 (c :: t) < 2 ^ 31) :
    parseFrom .fvInt32 ('0' :: 'x' :: c :: t)
      = some (.vInt32 (digitsVal 16 (c :: t))) := by
  unfold parseFrom
  simp only [reduceIte, List.isEmpty_cons, Bool.false_eq_true, if_false]
  rw [numBase_hex, strto64_hex hall (by omega)]
  have hcst : int32Cast ((digitsVal 16 (c :: t) : Int)) = (digitsVal 16 (c :: t) : Int) := by
    refine int32Cast_of_range ?_ ?_
    · have := Int.natCast_nonneg (digitsVal 16 (c :: t))
      omega
    · push_cast
      omega
  simp [hcst]
  omega

theorem parseFrom_uint64_hex {c : Char} {t : List Char}
    (hall : ∀ x ∈ c :: t, isHexDigit x = true)
    (hbound : digitsVal 16 (c :: t) < 2 ^ 64) :
    parseFrom .fvUInt64 ('0' :: 'x' :: c :: t)
      = some (.vUInt64 (digitsVal 16 (c :: t))) := by
  unfold parseFrom
  simp only [reduceIte, List.isEmpty_cons, Bool.false_eq_true, if_false]
  rw [numBase_hex, List.dropWhile_cons_of_neg (by decide)]
  simp only [List.head?_cons, show (some '0' == some '-') = false from rfl,
    Bool.false_eq_true, if_false]
  rw [strtou64_hex hall (by omega)]
  simp
  omega


theorem parseFrom_double_digits {d : Char} {rest : List Char}
    (hall : ∀ c ∈ d :: rest, isDecDigit c = true)
    (hbound : digitsVal 10 (d :: rest) < 2 ^ 64) :
    parseFrom .fvDouble (d :: rest)
      = some (.vDouble (.fin (digitsVal 10 (d :: rest)) 0 0)) := by
  unfold parseFrom
  simp only [reduceIte, List.isEmpty_cons, Bool.false_eq_true, if_false]
  rw [strtodModel_digits hall hbound]
  simp

theorem strtodModel_hex {c : Char} {t : List Char}
    (hall : ∀ x ∈ c :: t, isHexDigit x = true)
    (hbound : digitsVal 16 (c :: t) < 2 ^ 64) :
    strtodModel ('0' :: 'x' :: c :: t)
      = ⟨DoubleVal.fin (digitsVal 16 (c :: t)) 0 0, 2 + (c :: t).length, false⟩ := by
  have hc := hall c (List.mem_cons_self c t)
  unfold strtodModel
  rw [List.takeWhile_cons_of_neg (by decide), List.dropWhile_cons_of_neg (by decide)]
  simp only [List.head?_cons, List.tail_cons,
    show (some '0' == some '-') = false from rfl, show (some '0' == some '+') = false from rfl,
    Bool.or_self, Bool.false_eq_true, if_false, List.length_nil, List.take_succ_cons]
  rw [strcaseEq_head_ne (by decide), strcaseEq_head_ne (by decide),
      strcaseEq_head_ne (by decide)]
  simp only [Bool.false_eq_true, if_false,
    show (some '0' == some '0') = true from rfl,
    show (some 'x' == some 'x') = true from rfl, Bool.true_or, Bool.true_and,
    Option.map_some', Option.getD_some, hc, if_true]
  rw [takeWhile_all (p := isHexDigit) hall]
  simp only [List.drop_length, List.head?_nil, Option.none_beq_some, Bool.false_eq_true,
    if_false]
  simp only [scanExp, List.head?_nil, Option.none_beq_some, Bool.or_self, Bool.false_eq_true,
    if_false]
  simp only [digitsVal, List.foldl_nil, pow_zero, mul_one, Nat.cast_zero, add_zero,
    List.length_nil, Nat.mul_zero, Int.sub_zero, zero_add]
  have := finishD_smallNat (digitsVal 16 (c :: t) : Int)
    (Int.natCast_nonneg _) (by push_cast; omega) (2 + (c :: t).length)
  simp only [digitsVal, List.foldl_cons, Nat.zero_mul, Nat.zero_add] at this
  simpa using this

theorem parseFrom_double_hex {c : Char} {t : List Char}
    (hall : ∀ x ∈ c :: t, isHexDigit x = true)
    (hbound : digitsVal 16 (c :: t) < 2 ^ 64) :
    parseFrom .fvDouble ('0' :: 'x' :: c :: t)
      = some (.vDouble (.fin (digitsVal 16 (c :: t)) 0 0)) := by
  unfold parseFrom
  simp only [reduceIte, List.isEmpty_cons, Bool.false_eq_true, if_false]
  rw [strtodModel_hex hall hbound]
  simp
  omega


theorem parseFrom_int32_consumed {v : List Char} {x : FVData}
    (h : parseFrom .fvInt32 v = some x) :
    (strto64 v (numBase v)).consumed = v.length
      ∧ (strto64 v (numBase v)).erange = false := by
  unfold parseFrom at h
  rw [if_neg (by decide), if_neg (by decide)] at h
  split at h
  · simp at h
  · simp at h
    exact ⟨h.1.2, h.1.1⟩

theorem parseFrom_int64_consumed {v : List Char} {x : FVData}
    (h : parseFrom .fvInt64 v = some x) :
    (strto64 v (numBase v)).consumed = v.length
      ∧ (strto64 v (numBase v)).erange = false := by
  unfold parseFrom at h
  rw [if_neg (by decide), if_neg (by decide)] at h
  split at h
  · simp at h
  · simp at h
    exact ⟨h.1.2, h.1.1⟩

theorem parseFrom_uint32_consumed {v : List Char} {x : FVData}
    (h : parseFrom .fvUInt32 v = some x) :
    (strtou64 (v.dropWhile (fun b => b == ' ')) (numBase v)).consumed
      = (v.dropWhile (fun b => b == ' ')).length
      ∧ (strtou64 (v.dropWhile (fun b => b == ' ')) (numBase v)).erange = false := by
  unfold parseFrom at h
  rw [if_neg (by decide), if_neg (by decide)] at h
  split at h
  · simp at h
  · simp at h
    exact ⟨h.2.1.2, h.2.1.1⟩

theorem parseFrom_uint64_consumed {v : List Char} {x : FVData}
    (h : parseFrom .fvUInt64 v = some x) :
    (strtou64 (v.dropWhile (fun b => b == ' ')) (numBase v)).consumed
      = (v.dropWhile (fun b => b == ' ')).length
      ∧ (strtou64 (v.dropWhile (fun b => b == ' ')) (numBase v)).erange = false := by
  unfold parseFrom at h
  rw [if_neg (by decide), if_neg (by decide)] at h
  split at h
  · simp at h
  · simp at h
    exact ⟨h.2.1.2, h.2.1.1⟩

theorem parseFrom_double_consumed {v : List Char} {x : FVData}
    (h : parseFrom .fvDouble v = some x) :
    (strtodModel v).consumed = v.length ∧ (strtodModel v).erange = false := by
  unfold parseFrom at h
  rw [if_neg (by decide), if_neg (by decide)] at h
  split at h
  · simp at h
  · simp at h
    exact ⟨h.1.2, h.1.1⟩

theorem parseFrom_unsigned_minus {v : List Char}
    (h : (v.dropWhile (fun b => b == ' ')).head? = some '-') :
    parseFrom .fvUInt32 v = none ∧ parseFrom .fvUInt64 v = none := by
  have hne : v.isEmpty = false := by
    cases v with
    | nil => simp at h
    | cons a l => rfl
  constructor <;>
    (unfold parseFrom; rw [if_neg (by decide), if_neg (by decide), if_neg (by simp [hne])];
     simp [h])

theorem parseFrom_int32_narrow {v : List Char}
    (h : int32Cast (strto64 v (numBase v)).value ≠ (strto64 v (numBase v)).value) :
    parseFrom .fvInt32 v = none := by
  cases hp : parseFrom .fvInt32 v with
  | none => rfl
  | some y =>
    unfold parseFrom at hp
    rw [if_neg (by decide), if_neg (by decide)] at hp
    split at hp
    · simp at hp
    · simp at hp
      exact absurd hp.2.1 h

theorem parseFrom_uint32_narrow {v : List Char}
    (h : uint32Cast (strtou64 (v.dropWhile (fun b => b == ' ')) (numBase v)).value
          ≠ (strtou64 (v.dropWhile (fun b => b == ' ')) (numBase v)).value) :
    parseFrom .fvUInt32 v = none := by
  cases hp : parseFrom .fvUInt32 v with
  | none => rfl
  | some y =>
    unfold parseFrom at hp
    rw [if_neg (by decide), if_neg (by decide)] at hp
    split at hp
    · simp at hp
    · simp at hp
      exact absurd hp.2.2.1 h

/-- C3: for the numeric kinds (int32, uint32, int64, uint64, double), ParseFrom
fails on the empty string; an all-decimal-digit string (leading zeros included)
parses to its base-10 value, so a leading `0` never selects octal, while a
`0x` prefix selects base 16; a successful parse means the numeric scan consumed
the entire string (and set no range error), and trailing garbage such as
`12abc` fails for every numeric kind; the unsigned kinds reject any input whose
first character after leading spaces is `-`; and the 32-bit kinds fail whenever
the scanned 64-bit value does not narrow losslessly back to 32 bits, e.g.
`2147483648` fails for int32 and `4294967296` fails for uint32. -/
theorem claim_C3 :
    (∀ t, t ∈ [ValueType.fvInt32, ValueType.fvUInt32, ValueType.fvInt64,
        ValueType.fvUInt64, ValueType.fvDouble] → parseFrom t [] = none)
    ∧ (∀ (d : Char) (rest : List Char), (∀ c ∈ d :: rest, isDecDigit c = true) →
        digitsVal 10 (d :: rest) < 2 ^ 31 →
        parseFrom .fvInt32 (d :: rest) = some (.vInt32 (digitsVal 10 (d :: rest)))
        ∧ parseFrom .fvUInt32 (d :: rest) = some (.vUInt32 (digitsVal 10 (d :: rest)))
        ∧ parseFrom .fvInt64 (d :: rest) = some (.vInt64 (digitsVal 10 (d :: rest)))
        ∧ parseFrom .fvUInt64 (d :: rest) = some (.vUInt64 (digitsVal 10 (d :: rest)))
        ∧ parseFrom .fvDouble (d :: rest)
            = some (.vDouble (.fin (digitsVal 10 (d :: rest)) 0 0)))
    ∧ (∀ (c : Char) (t : List Char), (∀ x ∈ c :: t, isHexDigit x = true) →
        digitsVal 16 (c :: t) < 2 ^ 31 →
        parseFrom .fvInt32 ('0' :: 'x' :: c :: t)
            = some (.vInt32 (digitsVal 16 (c :: t)))
        ∧ parseFrom .fvUInt64 ('0' :: 'x' :: c :: t)
            = some (.vUInt64 (digitsVal 16 (c :: t)))
        ∧ parseFrom .fvDouble ('0' :: 'x' :: c :: t)
            = some (.vDouble (.fin (digitsVal 16 (c :: t)) 0 0)))
    ∧ (∀ (v : List Char) (x : FVData),
        (parseFrom .fvInt32 v = some x →
          (strto64 v (numBase v)).consumed = v.length
            ∧ (strto64 v (numBase v)).erange = false)
        ∧ (parseFrom .fvInt64 v = some x →
          (strto64 v (numBase v)).consumed = v.length
            ∧ (strto64 v (numBase v)).erange = false)
        ∧ (parseFrom .fvUInt32 v = some x →
          (strtou64 (v.dropWhile (fun b => b == ' ')) (numBase v)).consumed
            = (v.dropWhile (fun b => b == ' ')).length)
        ∧ (parseFrom .fvUInt64 v = some x →
          (strtou64 (v.dropWhile (fun b => b == ' ')) (numBase v)).consumed
            = (v.dropWhile (fun b => b == ' ')).length)
        ∧ (parseFrom .fvDouble v = some x →
          (strtodModel v).consumed = v.length ∧ (strtodModel v).erange = false))
    ∧ (parseFrom .fvInt32 "12abc".data = none
        ∧ parseFrom .fvUInt32 "12abc".data = none
        ∧ parseFrom .fvInt64 "12abc".data = none
        ∧ parseFrom .fvUInt64 "12abc".data = none
        ∧ parseFrom .fvDouble "12abc".data = none)
    ∧ (∀ v : List Char, (v.dropWhile (fun b => b == ' ')).head? = some '-' →
        parseFrom .fvUInt32 v = none ∧ parseFrom .fvUInt64 v = none)
    ∧ (∀ v : List Char,
        (int32Cast (strto64 v (numBase v)).value ≠ (strto64 v (numBase v)).value →
          parseFrom .fvInt32 v = none)
        ∧ (uint32Cast (strtou64 (v.dropWhile (fun b => b == ' ')) (numBase v)).value
              ≠ (strtou64 (v.dropWhile (fun b => b == ' ')) (numBase v)).value →
            parseFrom .fvUInt32 v = none))
    ∧ (parseFrom .fvInt32 "2147483648".data = none
        ∧ parseFrom .fvUInt32 "4294967296".data = none
        ∧ parseFrom .fvInt64 "2147483648".data = some (.vInt64 2147483648)
        ∧ parseFrom .fvUInt32 " -1".data = none) := by
  refine ⟨?_, ?_, ?_, ?_, ?_, ?_, ?_, ?_⟩
  · intro t ht
    fin_cases ht <;> rfl
  · intro d rest hall hbound
    exact ⟨parseFrom_int32_digits hall hbound,
      parseFrom_uint32_digits hall (by omega),
      parseFrom_int64_digits hall (by omega),
      parseFrom_uint64_digits hall (by omega),
      parseFrom_double_digits hall (by omega)⟩
  · intro c t hall hbound
    exact ⟨parseFrom_int32_hex hall hbound,
      parseFrom_uint64_hex hall (by omega),
      parseFrom_double_hex hall (by omega)⟩
  · intro v x
    exact ⟨parseFrom_int32_consumed, parseFrom_int64_consumed,
      fun h => (parseFrom_uint32_consumed h).1,
      fun h => (parseFrom_uint64_consumed h).1,
      parseFrom_double_consumed⟩
  · exact ⟨by decide, by decide, by decide, by decide, by decide⟩
  · intro v h
    exact parseFrom_unsigned_minus h
  · intro v
    exact ⟨parseFrom_int32_narrow, parseFrom_uint32_narrow⟩
  · exact ⟨by decide, by decide, by decide, by decide⟩

theorem claim_C3_witness :
    parseFrom .fvInt32 "007".data = some (.vInt32 7)
    ∧ parseFrom .fvInt32 "0x1f".data = some (.vInt32 31)
    ∧ parseFrom .fvUInt64 " -3".data = none
    ∧ (strto64 "12".data (numBase "12".data)).consumed = "12".data.length
    ∧ parseFrom .fvInt32 "9999999999".data = none := by
  obtain ⟨h1, h2, h3, h4, h5, h6, h7, h8⟩ := claim_C3
  refine ⟨?_, ?_, ?_, ?_, ?_⟩
  · exact (h2 '0' ['0', '7'] (by decide) (by decide)).1
  · exact (h3 '1' ['f'] (by decide) (by decide)).1
  · exact (h6 " -3".data (by decide)).2
  · exact ((h4 "12".data (.vInt32 12)).1 (by decide)).1
  · exact (h7 "9999999999".data).1 (by decide)


theorem dfinQ_scale (m a b c d : Int) (hc : c ≤ a) (hd : d ≤ b) :
    ((m * ((Nat.pow 10 (a - c).toNat * Nat.pow 2 (b - d).toNat : Nat) : Int) : Int) : ℚ)
      = dfinQ m a b * (10 : ℚ) ^ (-c : Int) * (2 : ℚ) ^ (-d : Int) := by
  have h1 : (((a - c).toNat : Int)) = a - c := Int.toNat_of_nonneg (by omega)
  have h2 : (((b - d).toNat : Int)) = b - d := Int.toNat_of_nonneg (by omega)
  rw [Nat.pow_eq, Nat.pow_eq]
  push_cast
  rw [show ((10 : ℚ) ^ (a - c).toNat) = (10 : ℚ) ^ (((a - c).toNat : Int)) from
        (zpow_natCast _ _).symm,
      show ((2 : ℚ) ^ (b - d).toNat) = (2 : ℚ) ^ (((b - d).toNat : Int)) from
        (zpow_natCast _ _).symm,
      h1, h2, dfinQ]
  rw [zpow_sub₀ (by norm_num : (10 : ℚ) ≠ 0), zpow_sub₀ (by norm_num : (2 : ℚ) ≠ 0),
      zpow_neg, zpow_neg]
  ring

theorem dfinCmp_zero_iff (m1 a1 b1 m2 a2 b2 : Int) :
    dfinCmp 0 m1 a1 b1 m2 a2 b2 = true ↔ dfinQ m1 a1 b1 = dfinQ m2 a2 b2 := by
  have h10 : (10 : ℚ) ^ (-(min a1 a2) : Int) ≠ 0 := zpow_ne_zero _ (by norm_num)
  have h2q : (2 : ℚ) ^ (-(min b1 b2) : Int) ≠ 0 := zpow_ne_zero _ (by norm_num)
  unfold dfinCmp
  simp only [beq_self_eq_true, if_true, beq_iff_eq]
  rw [← Int.cast_inj (α := ℚ),
      dfinQ_scale m1 a1 b1 (min a1 a2) (min b1 b2) (min_le_left _ _) (min_le_left _ _),
      dfinQ_scale m2 a2 b2 (min a1 a2) (min b1 b2) (min_le_right _ _) (min_le_right _ _),
      (mul_left_injective₀ h2q).eq_iff, (mul_left_injective₀ h10).eq_iff]

theorem dblEqual_trans {x y z : DoubleVal} (h1 : dblEqual x y = true)
    (h2 : dblEqual y z = true) : dblEqual x z = true := by
  cases x <;> cases y <;> cases z
  all_goals try simp only [dblEqual] at h1 h2 ⊢
  all_goals try (exact absurd h1 (by decide))
  all_goals try (exact absurd h2 (by decide))
  rw [dfinCmp_zero_iff] at h1 h2 ⊢
  exact h1.trans h2

theorem fvEqual_trans {x y z : FVData} (h1 : fvEqual x y = true)
    (h2 : fvEqual y z = true) : fvEqual x z = true := by
  cases x <;> cases y <;> cases z
  all_goals try simp only [fvEqual] at h1 h2 ⊢
  all_goals try (exact absurd h1 (by decide))
  all_goals try (exact absurd h2 (by decide))
  all_goals try (simp only [beq_iff_eq] at h1 h2 ⊢; exact h1.trans h2)
  exact dblEqual_trans h1 h2

theorem ObsEqV_trans {x y z : FVData} (h1 : ObsEqV x y) (h2 : ObsEqV y z) :
    ObsEqV x z := by
  rcases h1 with rfl | h1
  · exact h2
  · rcases h2 with rfl | h2
    · exact Or.inr h1
    · exact Or.inr (fvEqual_trans h1 h2)

theorem copyFrom_name (d s : CommandLineFlag) : (d.CopyFrom s).name = d.name := rfl

theorem copyFrom_help (d s : CommandLineFlag) : (d.CopyFrom s).help = d.help := rfl

theorem copyFrom_file (d s : CommandLineFlag) : (d.CopyFrom s).file = d.file := rfl

theorem copyFrom_ptr (d s : CommandLineFlag) : (d.CopyFrom s).ptr = d.ptr := rfl

theorem copyFrom_modified (d s : CommandLineFlag) :
    (d.CopyFrom s).modified = s.modified := by
  simp only [CommandLineFlag.CopyFrom]
  by_cases h : d.modified = s.modified
  · simp [h]
  · simp [h]

theorem copyFrom_validate (d s : CommandLineFlag) :
    (d.CopyFrom s).validate_fn_proto = s.validate_fn_proto := by
  simp only [CommandLineFlag.CopyFrom]
  by_cases h : d.validate_fn_proto = s.validate_fn_proto
  · simp [h]
  · simp [h]

theorem copyFrom_current_obs (d s : CommandLineFlag)
    (ht : fvType d.current = fvType s.current) :
    ObsEqV (d.CopyFrom s).current s.current := by
  simp only [CommandLineFlag.CopyFrom]
  by_cases h : fvEqual d.current s.current = true
  · simp only [h, Bool.not_true, Bool.false_eq_true, if_false]
    exact Or.inr h
  · rw [Bool.not_eq_true] at h
    simp only [h, Bool.not_false, if_true, fvCopyFrom_eq_of_type ht]
    exact Or.inl rfl

theorem copyFrom_defvalue_obs (d s : CommandLineFlag)
    (ht : fvType d.defvalue = fvType s.defvalue) :
    ObsEqV (d.CopyFrom s).defvalue s.defvalue := by
  simp only [CommandLineFlag.CopyFrom]
  by_cases h : fvEqual d.defvalue s.defvalue = true
  · simp only [h, Bool.not_true, Bool.false_eq_true, if_false]
    exact Or.inr h
  · rw [Bool.not_eq_true] at h
    simp only [h, Bool.not_false, if_true, fvCopyFrom_eq_of_type ht]
    exact Or.inl rfl

theorem copyFrom_current_type (d s : CommandLineFlag)
    (ht : fvType d.current = fvType s.current) :
    fvType (d.CopyFrom s).current = fvType s.current := by
  simp only [CommandLineFlag.CopyFrom]
  by_cases h : fvEqual d.current s.current = true
  · simp only [h, Bool.not_true, Bool.false_eq_true, if_false]
    exact ht
  · rw [Bool.not_eq_true] at h
    simp only [h, Bool.not_false, if_true, fvCopyFrom_eq_of_type ht]

theorem copyFrom_defvalue_type (d s : CommandLineFlag)
    (ht : fvType d.defvalue = fvType s.defvalue) :
    fvType (d.CopyFrom s).defvalue = fvType s.defvalue := by
  simp only [CommandLineFlag.CopyFrom]
  by_cases h : fvEqual d.defvalue s.defvalue = true
  · simp only [h, Bool.not_true, Bool.false_eq_true, if_false]
    exact ht
  · rw [Bool.not_eq_true] at h
    simp only [h, Bool.not_false, if_true, fvCopyFrom_eq_of_type ht]

theorem backupOf_name (f : CommandLineFlag) : (backupOf f).name = f.name := rfl

theorem backupOf_modified (f : CommandLineFlag) :
    (backupOf f).modified = f.modified := by
  unfold backupOf
  exact copyFrom_modified _ f

theorem backupOf_validate (f : CommandLineFlag) :
    (backupOf f).validate_fn_proto = f.validate_fn_proto := by
  unfold backupOf
  exact copyFrom_validate _ f

theorem backupOf_current_obs (f : CommandLineFlag) :
    ObsEqV (backupOf f).current f.current := by
  unfold backupOf
  exact copyFrom_current_obs _ f (by simp [fvType_fvNew])

theorem backupOf_defvalue_obs (f : CommandLineFlag) :
    ObsEqV (backupOf f).defvalue f.defvalue := by
  unfold backupOf
  exact copyFrom_defvalue_obs _ f (by simp [fvType_fvNew])

theorem backupOf_current_type (f : CommandLineFlag) :
    fvType (backupOf f).current = fvType f.current := by
  unfold backupOf
  exact copyFrom_current_type _ f (by simp [fvType_fvNew])

theorem backupOf_defvalue_type (f : CommandLineFlag) :
    fvType (backupOf f).defvalue = fvType f.defvalue := by
  unfold backupOf
  exact copyFrom_defvalue_type _ f (by simp [fvType_fvNew])

theorem find_update_ne {l : List CommandLineFlag} {g : CommandLineFlag} {n : List Char}
    (h : g.name ≠ n) :
    (l.map (fun f => if f.name == g.name then g else f)).find? (fun f => f.name == n)
      = l.find? (fun f => f.name == n) := by
  induction l with
  | nil => rfl
  | cons f t ih =>
    simp only [List.map_cons]
    by_cases hf : f.name = g.name
    · rw [if_pos (by simpa using hf)]
      rw [List.find?_cons_of_neg _ (by simp [h]),
          List.find?_cons_of_neg _ (by simp [hf, h])]
      exact ih
    · rw [if_neg (by simpa using hf)]
      by_cases hp : f.name = n
      · rw [List.find?_cons_of_pos _ (by simpa using hp),
            List.find?_cons_of_pos _ (by simpa using hp)]
      · rw [List.find?_cons_of_neg _ (by simpa using hp),
            List.find?_cons_of_neg _ (by simpa using hp)]
        exact ih

theorem find_update_eq {l : List CommandLineFlag} {g m : CommandLineFlag}
    (h : l.find? (fun f => f.name == g.name) = some m) :
    (l.map (fun f => if f.name == g.name then g else f)).find?
        (fun f => f.name == g.name) = some g := by
  induction l with
  | nil => simp at h
  | cons f t ih =>
    simp only [List.map_cons]
    by_cases hf : f.name = g.name
    · rw [if_pos (by simpa using hf)]
      exact List.find?_cons_of_pos _ (by simp)
    · rw [if_neg (by simpa using hf)]
      rw [List.find?_cons_of_neg _ (by simpa using hf)]
      rw [List.find?_cons_of_neg _ (by simpa using hf)] at h
      exact ih h

theorem updateFlag_find_ne (s : FlagRegistry) (g : CommandLineFlag) (n : List Char)
    (h : g.name ≠ n) : (s.updateFlag g).FindFlagLocked n = s.FindFlagLocked n :=
  find_update_ne h

theorem updateFlag_find_eq {s : FlagRegistry} {g m : CommandLineFlag}
    (h : s.FindFlagLocked g.name = some m) :
    (s.updateFlag g).FindFlagLocked g.name = some g :=
  find_update_eq h

theorem findFlag_name {s : FlagRegistry} {n : List Char} {m : CommandLineFlag}
    (h : s.FindFlagLocked n = some m) : m.name = n := by
  have := List.find?_some h
  simpa using this

theorem updateFlag_names (s : FlagRegistry) (g : CommandLineFlag) :
    (s.updateFlag g).names = s.names := by
  unfold FlagRegistry.updateFlag FlagRegistry.names
  rw [List.map_map]
  refine List.map_congr_left ?_
  intro f _
  simp only [Function.comp_apply]
  by_cases hf : f.name = g.name
  · simp [hf]
  · simp [hf]

theorem restore_cons (b : CommandLineFlag) (t : List CommandLineFlag) (s : FlagRegistry) :
    RestoreToRegistry (b :: t) s
      = RestoreToRegistry t
          (match s.FindFlagLocked b.name with
           | some mainf => s.updateFlag (mainf.CopyFrom b)
           | none => s) := rfl

theorem restore_find_notmem (bk : List CommandLineFlag) (s : FlagRegistry)
    (n : List Char) (h : ∀ b ∈ bk, b.name ≠ n) :
    (RestoreToRegistry bk s).FindFlagLocked n = s.FindFlagLocked n := by
  induction bk generalizing s with
  | nil => rfl
  | cons b t ih =>
    rw [restore_cons]
    cases hf : s.FindFlagLocked b.name with
    | none =>
      simp only [hf]
      exact ih s (fun x hx => h x (List.mem_cons_of_mem _ hx))
    | some m =>
      simp only [hf]
      rw [ih _ (fun x hx => h x (List.mem_cons_of_mem _ hx))]
      refine updateFlag_find_ne s _ n ?_
      rw [copyFrom_name, findFlag_name hf]
      exact h b (List.mem_cons_self _ _)

theorem restore_names (bk : List CommandLineFlag) (s : FlagRegistry) :
    (RestoreToRegistry bk s).names = s.names := by
  induction bk generalizing s with
  | nil => rfl
  | cons b t ih =>
    rw [restore_cons]
    cases hf : s.FindFlagLocked b.name with
    | none =>
      simp only [hf]
      exact ih s
    | some m =>
      simp only [hf]
      rw [ih]
      exact updateFlag_names s _

theorem restore_find_mem (bk : List CommandLineFlag) (s : FlagRegistry)
    (b : CommandLineFlag) (hmem : b ∈ bk)
    (hnd : (bk.map (fun x => x.name)).Nodup) :
    (RestoreToRegistry bk s).FindFlagLocked b.name
      = Option.map (fun m => m.CopyFrom b) (s.FindFlagLocked b.name) := by
  induction bk generalizing s with
  | nil => cases hmem
  | cons b0 t ih =>
    rw [restore_cons]
    simp only [List.map_cons, List.nodup_cons] at hnd
    rcases List.mem_cons.mp hmem with rfl | hmem2
    · have hnotin : ∀ x ∈ t, x.name ≠ b.name := by
        intro x hx he
        exact hnd.1 (he ▸ List.mem_map_of_mem _ hx)
      cases hf : s.FindFlagLocked b.name with
      | none =>
        simp only [hf, Option.map_none']
        rw [restore_find_notmem t s _ hnotin]
        exact hf
      | some m =>
        simp only [hf, Option.map_some']
        rw [restore_find_notmem t _ _ hnotin]
        have hgn : (m.CopyFrom b).name = b.name := by
          rw [copyFrom_name, findFlag_name hf]
        have h2 : (s.updateFlag (m.CopyFrom b)).FindFlagLocked (m.CopyFrom b).name
            = some (m.CopyFrom b) := updateFlag_find_eq (by rw [hgn]; exact hf)
        rw [hgn] at h2
        exact h2
    · have hb0 : b0.name ≠ b.name := by
        intro he
        exact hnd.1 (he ▸ List.mem_map_of_mem _ hmem2)
      cases hf : s.FindFlagLocked b0.name with
      | none =>
        simp only [hf]
        exact ih s hmem2 hnd.2
      | some m =>
        simp only [hf]
        rw [ih _ hmem2 hnd.2]
        rw [updateFlag_find_ne s _ _ (by rw [copyFrom_name, findFlag_name hf]; exact hb0)]

theorem save_names (r : FlagRegistry) :
    (SaveFromRegistry r).map (fun x => x.name) = r.names := by
  unfold SaveFromRegistry FlagRegistry.names
  rw [List.map_map]
  rfl

/-- C7: after capturing a snapshot of registry r and mutating it into registry
s, restoring the snapshot leaves every name never captured untouched, adds and
removes no flag, returns every captured flag still present to its captured
modified bit, validator, current and default value (the latter two up to the
value equality the restore itself uses to skip redundant copies), and silently
skips a captured flag no longer present. -/
theorem claim_C7 (r s : FlagRegistry) (hnd : r.names.Nodup) :
    (∀ n, n ∉ r.names →
      (RestoreToRegistry (SaveFromRegistry r) s).FindFlagLocked n = s.FindFlagLocked n)
    ∧ (RestoreToRegistry (SaveFromRegistry r) s).names = s.names
    ∧ (∀ f ∈ r.flags, ∀ m, s.FindFlagLocked f.name = some m →
        fvType m.current = fvType f.current →
        fvType m.defvalue = fvType f.defvalue →
        ∃ g, (RestoreToRegistry (SaveFromRegistry r) s).FindFlagLocked f.name = some g
          ∧ g.modified = f.modified
          ∧ g.validate_fn_proto = f.validate_fn_proto
          ∧ ObsEqV g.current f.current
          ∧ ObsEqV g.defvalue f.defvalue
          ∧ g.name = f.name ∧ g.help = m.help ∧ g.file = m.file ∧ g.ptr = m.ptr)
    ∧ (∀ f ∈ r.flags, s.FindFlagLocked f.name = none →
        (RestoreToRegistry (SaveFromRegistry r) s).FindFlagLocked f.name = none) := by
  have hsave : (SaveFromRegistry r).map (fun x => x.name) = r.names := save_names r
  have hndbk : ((SaveFromRegistry r).map (fun x => x.name)).Nodup := by
    rw [hsave]; exact hnd
  refine ⟨?_, restore_names _ _, ?_, ?_⟩
  · intro n hn
    refine restore_find_notmem _ _ _ ?_
    intro b hb he
    refine hn ?_
    rw [← he, ← hsave]
    exact List.mem_map_of_mem _ hb
  · intro f hf m hm htc htd
    have hmem : backupOf f ∈ SaveFromRegistry r := List.mem_map_of_mem _ hf
    have hkey := restore_find_mem (SaveFromRegistry r) s (backupOf f) hmem hndbk
    rw [backupOf_name, hm, Option.map_some'] at hkey
    refine ⟨m.CopyFrom (backupOf f), hkey, ?_, ?_, ?_, ?_, ?_, rfl, rfl, rfl⟩
    · rw [copyFrom_modified, backupOf_modified]
    · rw [copyFrom_validate, backupOf_validate]
    · refine ObsEqV_trans (copyFrom_current_obs m (backupOf f) ?_) (backupOf_current_obs f)
      rw [backupOf_current_type]
      exact htc
    · refine ObsEqV_trans (copyFrom_defvalue_obs m (backupOf f) ?_) (backupOf_defvalue_obs f)
      rw [backupOf_defvalue_type]
      exact htd
    · rw [copyFrom_name, findFlag_name hm]
  · intro f hf hm
    have hmem : backupOf f ∈ SaveFromRegistry r := List.mem_map_of_mem _ hf
    have hkey := restore_find_mem (SaveFromRegistry r) s (backupOf f) hmem hndbk
    rw [backupOf_name, hm, Option.map_none'] at hkey
    exact hkey

theorem claim_C7_witness :
    ((RestoreToRegistry (SaveFromRegistry egRegistry) mutRegistry).FindFlagLocked
        "new".data = mutRegistry.FindFlagLocked "new".data)
    ∧ (RestoreToRegistry (SaveFromRegistry egRegistry) mutRegistry).names
        = mutRegistry.names
    ∧ (∃ g, (RestoreToRegistry (SaveFromRegistry egRegistry) mutRegistry).FindFlagLocked
          "bar".data = some g
        ∧ g.modified = false ∧ g.validate_fn_proto = none
        ∧ ObsEqV g.current (FVData.vInt32 0) ∧ ObsEqV g.defvalue (FVData.vInt32 0))
    ∧ (RestoreToRegistry (SaveFromRegistry egRegistry) mutRegistry).FindFlagLocked
        "foo".data = none := by
  obtain ⟨h1, h2, h3, h4⟩ := claim_C7 egRegistry mutRegistry (by decide)
  refine ⟨h1 "new".data (by decide), h2, ?_, h4 fooFlag (by decide) (by decide)⟩
  obtain ⟨g, hg, hmod, hval, hcur, hdef, -, -, -, -⟩ :=
    h3 barFlag (by decide) barMut (by decide) rfl rfl
  exact ⟨g, hg, hmod, hval, hcur, hdef⟩



theorem matchWords_false {mp : List Char → Bool} (hmp : ∀ w, mp w = false) :
    ∀ ws, matchWords mp false ws = false := by
  intro ws
  induction ws with
  | nil => rfl
  | cons w t ih => simp only [matchWords, Bool.false_eq_true, if_false, hmp w, ih]

theorem processLine_blank (venv : VEnv) (mp : List Char → Bool) (sm : FlagSettingMode)
    (line : List Char) (rel insec : Bool) (st : PState)
    (h : (line.isEmpty || (line.head? == some '#')) = true) :
    processLine venv mp sm line rel insec st = (rel, insec, st, []) := by
  unfold processLine
  simp [h]

theorem processLine_section (venv : VEnv) (mp : List Char → Bool) (sm : FlagSettingMode)
    (line : List Char) (rel insec : Bool) (st : PState)
    (h1 : line.isEmpty = false) (h2 : line.head? ≠ some '#')
    (h3 : line.head? ≠ some '-') :
    processLine venv mp sm line rel insec st
      = (matchWords mp (if insec then rel else false) (line.splitOn ' '), true, st, []) := by
  unfold processLine
  rw [if_neg (by simp [h1, h2]), if_neg (by simp [h3])]
  cases insec <;> simp

theorem processLine_skip (venv : VEnv) (mp : List Char → Bool) (sm : FlagSettingMode)
    (rest : List Char) (insec : Bool) (st : PState) :
    processLine venv mp sm ('-' :: rest) false insec st = (false, false, st, []) := by
  unfold processLine
  simp

theorem processLine_apply (venv : VEnv) (mp : List Char → Bool) (sm : FlagSettingMode)
    (rest : List Char) (insec : Bool) (st : PState) :
    processLine venv mp sm ('-' :: rest) true insec st
      = (true, false, (processFlagLine venv sm rest st).1,
         (processFlagLine venv sm rest st).2) := by
  unfold processLine
  simp

theorem processLine_irrelevant (venv : VEnv) (mp : List Char → Bool)
    (sm : FlagSettingMode) (hmp : ∀ w, mp w = false) (line : List Char)
    (insec : Bool) (st : PState) :
    ∃ b, processLine venv mp sm line false insec st = (false, b, st, []) := by
  by_cases h1 : (line.isEmpty || (line.head? == some '#')) = true
  · exact ⟨insec, processLine_blank venv mp sm line false insec st h1⟩
  · by_cases h2 : line.head? = some '-'
    · refine ⟨false, ?_⟩
      rcases line with _ | ⟨c, rest⟩
      · simp at h1
      · simp only [List.head?_cons, Option.some.injEq] at h2
        subst h2
        exact processLine_skip venv mp sm rest insec st
    · refine ⟨true, ?_⟩
      rw [processLine_section venv mp sm line false insec st (by simpa using (by
            simpa [not_or] using h1 : ¬line.isEmpty = true ∧
              ¬(line.head? == some '#') = true).1)
          (by simp only [not_or, Bool.or_eq_true] at h1; simpa using h1.2) h2]
      rw [ite_self, matchWords_false hmp]

theorem run_skip (venv : VEnv) (mp : List Char → Bool) (sm : FlagSettingMode)
    (hmp : ∀ w, mp w = false) :
    ∀ (n : Nat) (content : List Char), content.length ≤ n → ∀ (insec : Bool) (st : PState),
      ProcessOptionsFromStringLocked venv mp sm content false insec st = (st, []) := by
  intro n
  induction n with
  | zero =>
    intro content hlen insec st
    have : content = [] := List.eq_nil_of_length_eq_zero (Nat.le_zero.mp hlen)
    subst this
    rw [ProcessOptionsFromStringLocked]
    rfl
  | succ n ih =>
    intro content hlen insec st
    rw [ProcessOptionsFromStringLocked]
    split
    · rename_i hsep
      obtain ⟨b, hb⟩ := processLine_irrelevant venv mp sm hmp
        (content.dropWhile isCSpace) insec st
      simp [hb]
    · rename_i i hsep
      have hlc : (content.dropWhile isCSpace).length ≤ content.length :=
        (List.dropWhile_sublist isCSpace (l := content)).length_le
      have hi : i < (content.dropWhile isCSpace).length := lineSep_lt_length _ _ hsep
      obtain ⟨b, hb⟩ := processLine_irrelevant venv mp sm hmp
        ((content.dropWhile isCSpace).take i) insec st
      simp [hb, ih ((content.dropWhile isCSpace).drop (i + 1))
            (by simp only [List.length_drop]; omega) b st]

/-- C8: line classification of flagfile content.  For the per-line step:
blank and comment lines change nothing; a non-empty line starting with
neither # nor - opens a filename section (relevance restarts at false unless
already inside a section) and scans its space-separated patterns; a flag line
under a non-matching section is skipped entirely; a flag line under a matching
section is applied through the flag-setting pipeline and keeps relevance until
the next section line.  For whole contents: if no pattern ever matches the
program, a run that starts non-relevant changes no flag and emits nothing. -/
theorem claim_C8 (venv : VEnv) (mp : List Char → Bool) (sm : FlagSettingMode) :
    (∀ (line : List Char) (rel insec : Bool) (st : PState),
       (line.isEmpty || (line.head? == some '#')) = true →
       processLine venv mp sm line rel insec st = (rel, insec, st, []))
    ∧ (∀ (line : List Char) (rel insec : Bool) (st : PState),
       line.isEmpty = false → line.head? ≠ some '#' → line.head? ≠ some '-' →
       processLine venv mp sm line rel insec st
         = (matchWords mp (if insec then rel else false) (line.splitOn ' '),
            true, st, []))
    ∧ (∀ (rest : List Char) (insec : Bool) (st : PState),
       processLine venv mp sm ('-' :: rest) false insec st = (false, false, st, []))
    ∧ (∀ (rest : List Char) (insec : Bool) (st : PState),
       processLine venv mp sm ('-' :: rest) true insec st
         = (true, false, (processFlagLine venv sm rest st).1,
            (processFlagLine venv sm rest st).2))
    ∧ ((∀ w, mp w = false) → ∀ (content : List Char) (insec : Bool) (st : PState),
       ProcessOptionsFromStringLocked venv mp sm content false insec st = (st, [])) := by
  refine ⟨processLine_blank venv mp sm, processLine_section venv mp sm,
    processLine_skip venv mp sm, processLine_apply venv mp sm, ?_⟩
  intro hmp content insec st
  exact run_skip venv mp sm hmp content.length content le_rfl insec st

theorem claim_C8_witness :
    (processLine egVEnv (fun w => w == "prog".data) .SET_FLAGS_VALUE "# note".data
        true false ⟨egRegistry, []⟩ = (true, false, ⟨egRegistry, []⟩, []))
    ∧ (processLine egVEnv (fun w => w == "prog".data) .SET_FLAGS_VALUE "prog".data
        true false ⟨egRegistry, []⟩ = (true, true, ⟨egRegistry, []⟩, []))
    ∧ (processLine egVEnv (fun w => w == "prog".data) .SET_FLAGS_VALUE
        ('-' :: "-bar=5".data) false false ⟨egRegistry, []⟩
          = (false, false, ⟨egRegistry, []⟩, []))
    ∧ (ProcessOptionsFromStringLocked egVEnv (fun _ => false) .SET_FLAGS_VALUE
        "other\n--bar=5".data false false ⟨egRegistry, []⟩ = (⟨egRegistry, []⟩, [])) := by
  obtain ⟨hA, hB, hC, hD, hE⟩ :=
    claim_C8 egVEnv (fun w => w == "prog".data) FlagSettingMode.SET_FLAGS_VALUE
  refine ⟨hA "# note".data true false ⟨egRegistry, []⟩ (by decide),
    ?_, hC "-bar=5".data false ⟨egRegistry, []⟩, ?_⟩
  · have h := hB "prog".data true false ⟨egRegistry, []⟩ (by decide) (by decide) (by decide)
    rw [h]
    rfl
  · exact (claim_C8 egVEnv (fun _ => false) FlagSettingMode.SET_FLAGS_VALUE).2.2.2.2
      (fun w => rfl) "other\n--bar=5".data false ⟨egRegistry, []⟩



/-- Round trips of the printed value through ParseFrom at the extreme
representable values of every non-floating kind, supporting evidence for the
round-trip discussion: the double kind is excluded because its %.17g digits
and binary64 rounding are not modelled. -/
theorem roundtrip_extremes :
    parseFrom .fvBool (fvToString (.vBool true)) = some (.vBool true)
    ∧ parseFrom .fvBool (fvToString (.vBool false)) = some (.vBool false)
    ∧ parseFrom .fvInt32 (fvToString (.vInt32 2147483647)) = some (.vInt32 2147483647)
    ∧ parseFrom .fvInt32 (fvToString (.vInt32 (-2147483648)))
        = some (.vInt32 (-2147483648))
    ∧ parseFrom .fvUInt32 (fvToString (.vUInt32 4294967295)) = some (.vUInt32 4294967295)
    ∧ parseFrom .fvInt64 (fvToString (.vInt64 9223372036854775807))
        = some (.vInt64 9223372036854775807)
    ∧ parseFrom .fvInt64 (fvToString (.vInt64 (-9223372036854775808)))
        = some (.vInt64 (-9223372036854775808))
    ∧ parseFrom .fvUInt64 (fvToString (.vUInt64 18446744073709551615))
        = some (.vUInt64 18446744073709551615)
    ∧ parseFrom .fvString (fvToString (.vString "abc".data)) = some (.vString "abc".data) := by
  refine ⟨by decide, by decide, by decide, by decide, by decide, by decide, by decide,
    by decide, rfl⟩


end JFlags
